import Mathlib

/-!
# gcloud-firestore: the in-memory store double (`store_mock.go`) and the facade (`store.go`)

A shallow embedding of the Go sources.

* Go values that travel through `interface{}` are `GoVal`; maps and the variables that pointers
  refer to live in a `Heap` (Go maps and pointers are references, so a value handed to `Set`
  stays shared with the caller).  The reflection calls of `getValue`/`setValue` are modelled on
  this heap, including the run-time panics of package `reflect`.
* `*ColNode` and `*DocNode` are indices into `World.colHeap` / `World.docHeap`; a `[]string` is a
  slice header over a backing array in `World.arrays`.
* A Go `map[string]T` is a function `String → Option T`.
* A call that can panic returns an `Outcome`; a Go `error` is an `Option String`.

The values covered are the nil interface, booleans, integers, strings, `firestore.sentinel`
values, maps of type `map[string]interface{}` (nil or not), structs with tagged fields and
pointers to variables.  `encoding/json`, used by `Get` to copy the stored value into `dst`, is
a library outside the repository: `Get` takes it as a parameter (`Json`).
-/

namespace GoStore

/-! ## Go values -/

/-- The static types the model distinguishes.  `map` is `map[string]interface{}`, `iface` is
`interface{}`, `sentinel` is `firestore.sentinel`, `struct n` the struct type named `n`. -/
inductive GoType where
  | bool
  | int
  | string
  | sentinel
  | iface
  | map
  | struct (name : String)
  | ptr (elem : GoType)
deriving DecidableEq, Repr

/-- One field of a struct: the value of its `firestore:"..."` tag (empty when the field has no
such tag), whether the field is exported, its static type and its current value. -/
structure StructField (V : Type) where
  tag : String
  exported : Bool
  typ : GoType
  val : V

/-- A Go value as held by an `interface{}`.  `nil` is the nil interface; `nilMap` and `nilPtr`
are typed nils (an interface holding them is not `== nil`); `map a` refers to the map object at
address `a`; `ptr a proj` points to the variable at address `a`, or, when `proj` is not empty, to
the field reached from it by selecting the fields `proj` one after another. -/
inductive GoVal where
  | nil
  | bool (b : Bool)
  | int (n : Int)
  | str (s : String)
  | sentinel (n : Int)
  | nilMap
  | map (a : Nat)
  | struct (name : String) (fields : List (StructField GoVal))
  | nilPtr (elem : GoType)
  | ptr (a : Nat) (proj : List Nat)

/-- The value `firestore.Delete` (`Delete sentinel = iota`). -/
def firestoreDelete : GoVal := .sentinel 0

/-- The Go test `x == nil` on an `interface{}`. -/
def GoVal.isNil : GoVal → Bool
  | .nil => true
  | _ => false

/-- A variable or field: static type and current value. -/
structure Slot where
  typ : GoType
  val : GoVal

/-- The memory that values refer to: map objects and addressable variables. -/
structure Heap where
  maps : Nat → Option (String → Option GoVal)
  vars : Nat → Option Slot

/-- A heap with no objects. -/
def Heap.empty : Heap := ⟨fun _ => none, fun _ => none⟩

/-- Select fields `proj` starting from a slot. -/
def projSlot (s : Slot) : List Nat → Option Slot
  | [] => some s
  | i :: rest =>
    match s.val with
    | .struct _ fs =>
      match fs[i]? with
      | some f => projSlot ⟨f.typ, f.val⟩ rest
      | none => none
    | _ => none

/-- Replace the value found by selecting fields `proj` inside `v`. -/
def writeProj (v : GoVal) : List Nat → GoVal → Option GoVal
  | [], new => some new
  | i :: rest, new =>
    match v with
    | .struct n fs =>
      match fs[i]? with
      | some f =>
        match writeProj f.val rest new with
        | some x => some (.struct n (fs.set i { f with val := x }))
        | none => none
      | none => none
    | _ => none

/-- Read the variable (or field) a pointer refers to. -/
def Heap.load (h : Heap) (a : Nat) (proj : List Nat) : Option Slot :=
  match h.vars a with
  | some s => projSlot s proj
  | none => none

/-- Write through a pointer. -/
def Heap.store (h : Heap) (a : Nat) (proj : List Nat) (new : GoVal) : Option Heap :=
  match h.vars a with
  | some s =>
    match writeProj s.val proj new with
    | some x => some { h with vars := fun b => if b = a then some ⟨s.typ, x⟩ else h.vars b }
    | none => none
  | none => none

/-- The dynamic type `reflect.TypeOf(x)`; `none` for the nil interface. -/
def typeOf (h : Heap) : GoVal → Option GoType
  | .nil => none
  | .bool _ => some .bool
  | .int _ => some .int
  | .str _ => some .string
  | .sentinel _ => some .sentinel
  | .nilMap => some .map
  | .map _ => some .map
  | .struct n _ => some (.struct n)
  | .nilPtr t => some (.ptr t)
  | .ptr a proj =>
    match h.load a proj with
    | some s => some (.ptr s.typ)
    | none => none

/-- A `reflect.Value` that is valid: its type, its value and, when it is addressable, the
location it was taken from. -/
structure RValue where
  typ : GoType
  val : GoVal
  addr : Option (Nat × List Nat)

/-- The two opening statements of `getValue` and `setValue`:
`v := reflect.ValueOf(object); if v.Kind() == reflect.Ptr { v = v.Elem() }`.
`none` is the zero `reflect.Value` (kind `Invalid`): the nil interface, or `Elem` of a nil
pointer.  A Go pointer always refers to a live variable; for an address that holds no variable
the answer is that of a nil pointer. -/
def reflectTarget (h : Heap) (object : GoVal) : Option RValue :=
  match object with
  | .nil => none
  | .nilPtr _ => none
  | .ptr a proj =>
    match h.load a proj with
    | some s => some ⟨s.typ, s.val, some (a, proj)⟩
    | none => none
  | .bool b => some ⟨.bool, .bool b, none⟩
  | .int n => some ⟨.int, .int n, none⟩
  | .str s => some ⟨.string, .str s, none⟩
  | .sentinel n => some ⟨.sentinel, .sentinel n, none⟩
  | .nilMap => some ⟨.map, .nilMap, none⟩
  | .map a => some ⟨.map, .map a, none⟩
  | .struct n fs => some ⟨.struct n, .struct n fs, none⟩

/-- The call `v.MapIndex(reflect.ValueOf(key))` on a value of kind `Map`; `none` is the zero
`reflect.Value` (key missing, or nil map). -/
def mapIndex (h : Heap) (m : GoVal) (key : String) : Option GoVal :=
  match m with
  | .map a =>
    match h.maps a with
    | some entries => entries key
    | none => none
  | _ => none

/-- The loop `for i := 0; i < numField; i++` of `getValue`/`setValue`: the first field, with its
index, whose `firestore` tag equals `seg`. -/
def findField (seg : String) : Nat → List (StructField GoVal) → Option (Nat × StructField GoVal)
  | _, [] => none
  | i, f :: fs => if f.tag = seg then some (i, f) else findField seg (i + 1) fs

/-- The result of a call that may panic.  The message names the kind of panic; the text of a
run-time panic is shortened (the operand types are left out). -/
inductive Outcome (α : Type) where
  | ret (a : α)
  | panic (msg : String)

/-- The call `strings.Split(s, ".")` on the characters of `s`. -/
def splitDot : List Char → List (List Char)
  | [] => [[]]
  | c :: cs =>
    if c = '.' then [] :: splitDot cs
    else
      match splitDot cs with
      | [] => [[c]]
      | seg :: rest => (c :: seg) :: rest

/-- The call `strings.Split(pathName, ".")`. -/
def stringsSplit (pathName : String) : List String :=
  (splitDot pathName.toList).map String.mk

/-- The function `getValue(object, path)`. -/
def getValue (h : Heap) (object : GoVal) : List String → Outcome GoVal
  | [] => .ret object
  | seg :: rest =>
    match reflectTarget h object with
    | none => .ret .nil
    | some v =>
      match v.typ with
      | .map =>
        match mapIndex h v.val seg with
        | none => .ret .nil
        | some entry => getValue h entry rest
      | .struct _ =>
        match v.val with
        | .struct _ fs =>
          match findField seg 0 fs with
          | some (_, f) =>
            if f.exported then getValue h f.val rest
            else .panic "reflect.Value.Interface: cannot return value obtained from unexported field or method"
          | none => .ret .nil
        | _ => .ret .nil
      | _ => .ret .nil

/-- The function `GetPathValue(object, pathName)`. -/
def GetPathValue (h : Heap) (object : GoVal) (pathName : String) : Outcome GoVal :=
  getValue h object (stringsSplit pathName)

/-- The last-segment step of the map branch of `setValue`:
`reflect.TypeOf(value).String() == "firestore.sentinel" && reflect.ValueOf(value).IsZero()`
selects deletion; otherwise the entry is assigned.  `reflect.TypeOf(nil)` is a nil `Type`, so a
nil `value` panics on `.String()`. -/
def setMapEntry (h : Heap) (m : GoVal) (key : String) (value : GoVal) : Outcome Heap :=
  match value with
  | .nil => .panic "invalid memory address or nil pointer dereference"
  | .sentinel 0 =>
    match m with
    | .map a =>
      match h.maps a with
      | some entries =>
        .ret { h with maps := fun b =>
          if b = a then some (fun k => if k = key then none else entries k) else h.maps b }
      | none => .ret h
    | _ => .ret h
  | x =>
    match m with
    | .map a =>
      match h.maps a with
      | some entries =>
        .ret { h with maps := fun b =>
          if b = a then some (fun k => if k = key then some x else entries k) else h.maps b }
      | none => .panic "assignment to entry in nil map"
    | _ => .panic "assignment to entry in nil map"

/-- The last-segment step of the struct branch of `setValue`:
`v.Field(i).Set(reflect.ValueOf(value))`.  `Set` panics unless the field is addressable and
exported, `value` is not nil and its type is assignable to the field type. -/
def setField (h : Heap) (v : RValue) (i : Nat) (f : StructField GoVal) (value : GoVal) :
    Outcome Heap :=
  match v.addr with
  | none => .panic "reflect.Value.Set using unaddressable value"
  | some (a, proj) =>
    if f.exported then
      match typeOf h value with
      | none => .panic "reflect: call of reflect.Value.Set on zero Value"
      | some t =>
        if f.typ = .iface ∨ t = f.typ then
          match h.store a (proj ++ [i]) value with
          | some h2 => .ret h2
          | none => .panic "reflect.Value.Set using unaddressable value"
        else .panic "reflect.Set: value is not assignable to type"
    else .panic "reflect.Value.Set using value obtained using unexported field"

/-- The function `setValue(object, path, value)`; it returns the memory after the call.
In the map branch with more than one segment, `entry.Addr()` panics on every existing entry,
because a value obtained from `MapIndex` is not addressable. -/
def setValue (h : Heap) (object : GoVal) : List String → GoVal → Outcome Heap
  | [], _ => .panic "index out of range [0] with length 0"
  | seg :: rest, value =>
    match reflectTarget h object with
    | none => .panic "invalid path"
    | some v =>
      match v.typ with
      | .map =>
        match rest with
        | _ :: _ =>
          match mapIndex h v.val seg with
          | none => .ret h
          | some _ => .panic "reflect.Value.Addr of unaddressable value"
        | [] => setMapEntry h v.val seg value
      | .struct _ =>
        match v.val with
        | .struct _ fs =>
          match findField seg 0 fs with
          | some (i, f) =>
            match rest with
            | _ :: _ =>
              match v.addr with
              | none => .panic "reflect.Value.Addr of unaddressable value"
              | some (a, proj) =>
                if f.exported then setValue h (.ptr a (proj ++ [i])) rest value
                else .panic "reflect.Value.Interface: cannot return value obtained from unexported field or method"
            | [] => setField h v i f value
          | none => .panic "invalid path"
        | _ => .panic "invalid path"
      | _ => .panic "invalid path"

/-- The function `SetPathValue(object, pathName, value)`. -/
def SetPathValue (h : Heap) (object : GoVal) (pathName : String) (value : GoVal) : Outcome Heap :=
  setValue h object (stringsSplit pathName) value

/-! ## The node tree of the double -/

/-- The struct `ColNode`; `docNodes` is `map[string]*DocNode`. -/
structure ColNode where
  docNodes : String → Option Nat

/-- The struct `DocNode`; `colNodes` is `map[string]*ColNode`, `data == nil` means that the
document does not exist. -/
structure DocNode where
  id : String
  data : GoVal
  colNodes : String → Option Nat

/-- The struct `StoreMock`. -/
structure StoreMock where
  rootNode : DocNode
  failsOnGet : String → Option Bool
  failsOnSet : String → Option Bool
  failsOnDel : String → Option Bool
  failsOnUpd : String → Option Bool

/-- A `[]string` value: backing array, length and capacity. -/
structure GoSlice where
  arr : Nat
  len : Nat
  cap : Nat

/-- One store together with the memory of the program using it: the allocated `ColNode`s and
`DocNode`s (a pointer is an index), the backing arrays of path slices, and the memory holding
the documents' values. -/
structure World where
  store : StoreMock
  colHeap : List ColNode
  docHeap : List DocNode
  arrays : List (List String)
  heap : Heap

/-- The constructor `MockStore()`, in a program whose value memory is `heap`. -/
def MockStore (heap : Heap) : World where
  store :=
    { rootNode := { id := "", data := .nil, colNodes := fun _ => none }
      failsOnGet := fun _ => none
      failsOnSet := fun _ => none
      failsOnDel := fun _ => none
      failsOnUpd := fun _ => none }
  colHeap := []
  docHeap := []
  arrays := []
  heap := heap

/-- Assignment `m[key] = v` on a Go map. -/
def mapAssign {α : Type} (m : String → Option α) (key : String) (v : α) : String → Option α :=
  fun k => if k = key then some v else m k

/-- Read of a `map[string]bool` entry: `false` when the key is missing. -/
def flagOf (m : String → Option Bool) (key : String) : Bool :=
  match m key with
  | some b => b
  | none => false

/-- Dereference of a `*ColNode`.  Every pointer a reference holds comes from `Collection` and
is allocated; outside the heap the model reads an empty node. -/
def World.col (w : World) (p : Nat) : ColNode :=
  match w.colHeap[p]? with
  | some n => n
  | none => { docNodes := fun _ => none }

/-- Dereference of a `*DocNode`.  Every pointer a reference holds comes from `Doc` and is
allocated; outside the heap the model reads an empty node. -/
def World.doc (w : World) (p : Nat) : DocNode :=
  match w.docHeap[p]? with
  | some n => n
  | none => { id := "", data := .nil, colNodes := fun _ => none }

/-- The elements of a slice. -/
def World.readSlice (w : World) (s : GoSlice) : List String :=
  match w.arrays[s.arr]? with
  | some a => a.take s.len
  | none => []

/-- Capacity chosen by `append` when the backing array is full: the Go runtime doubles the
capacity of a slice of fewer than 256 elements, unless more is needed. -/
def growCap (oldCap needed : Nat) : Nat :=
  if 2 * oldCap < needed then needed else 2 * oldCap

/-- The builtin `append(s, x)` on a `[]string`: in place when there is spare capacity, in a new
backing array otherwise. -/
def goAppend (w : World) (s : GoSlice) (x : String) : World × GoSlice :=
  if s.len < s.cap then
    ({ w with arrays :=
        match w.arrays[s.arr]? with
        | some a => w.arrays.set s.arr (a.set s.len x)
        | none => w.arrays },
     { s with len := s.len + 1 })
  else
    let newCap := growCap s.cap (s.len + 1)
    ({ w with arrays :=
        w.arrays ++ [w.readSlice s ++ x :: List.replicate (newCap - (s.len + 1)) ""] },
     { arr := w.arrays.length, len := s.len + 1, cap := newCap })

/-- The call `strings.Join(path, "/")`. -/
def stringsJoin (path : List String) : String :=
  String.intercalate "/" path

/-- The struct `CollectionRefMock` (the `storeMock` pointer is the store of the world). -/
structure CollectionRefMock where
  colPath : GoSlice
  colNode : Nat

/-- The struct `DocumentRefMock` (the `storeMock` pointer is the store of the world). -/
structure DocumentRefMock where
  docPath : GoSlice
  docNode : Nat

/-- The method `StoreMock.FailsOnGet`. -/
def FailsOnGet (w : World) (path : String) (_fails : Bool) : World :=
  { w with store := { w.store with failsOnGet := mapAssign w.store.failsOnGet path false } }

/-- The method `StoreMock.FailsOnSet`. -/
def FailsOnSet (w : World) (path : String) (_fails : Bool) : World :=
  { w with store := { w.store with failsOnSet := mapAssign w.store.failsOnSet path false } }

/-- The method `StoreMock.FailsOnDel`. -/
def FailsOnDel (w : World) (path : String) (_fails : Bool) : World :=
  { w with store := { w.store with failsOnDel := mapAssign w.store.failsOnDel path false } }

/-- The method `StoreMock.FailsOnUpdate`. -/
def FailsOnUpdate (w : World) (path : String) (_fails : Bool) : World :=
  { w with store := { w.store with failsOnUpd := mapAssign w.store.failsOnUpd path false } }

/-- The slice literal `[]string{name}`. -/
def sliceLit (w : World) (name : String) : World × GoSlice :=
  ({ w with arrays := w.arrays ++ [[name]] }, { arr := w.arrays.length, len := 1, cap := 1 })

/-- The method `StoreMock.Collection`. -/
def StoreMock.Collection (w : World) (name : String) : World × CollectionRefMock :=
  match w.store.rootNode.colNodes name with
  | some colNode =>
    ((sliceLit w name).1, { colPath := (sliceLit w name).2, colNode := colNode })
  | none =>
    let w1 : World :=
      { w with
        colHeap := w.colHeap ++ [{ docNodes := fun _ => none }]
        store := { w.store with
          rootNode := { w.store.rootNode with
            colNodes := mapAssign w.store.rootNode.colNodes name w.colHeap.length } } }
    ((sliceLit w1 name).1, { colPath := (sliceLit w1 name).2, colNode := w.colHeap.length })

/-- The method `CollectionRefMock.Doc`. -/
def CollectionRefMock.Doc (c : CollectionRefMock) (w : World) (id : String) :
    World × DocumentRefMock :=
  match (w.col c.colNode).docNodes id with
  | some docNode =>
    ((goAppend w c.colPath id).1, { docPath := (goAppend w c.colPath id).2, docNode := docNode })
  | none =>
    let w1 : World :=
      { w with
        docHeap := w.docHeap ++ [{ id := id, data := .nil, colNodes := fun _ => none }]
        colHeap := w.colHeap.set c.colNode
          { docNodes := mapAssign (w.col c.colNode).docNodes id w.docHeap.length } }
    ((goAppend w1 c.colPath id).1,
     { docPath := (goAppend w1 c.colPath id).2, docNode := w.docHeap.length })

/-- The method `CollectionRefMock.Path`. -/
def CollectionRefMock.Path (c : CollectionRefMock) : GoSlice := c.colPath

/-- The method `DocumentRefMock.Collection`. -/
def DocumentRefMock.Collection (d : DocumentRefMock) (w : World) (name : String) :
    World × CollectionRefMock :=
  match (w.doc d.docNode).colNodes name with
  | some colNode =>
    ((goAppend w d.docPath name).1, { colPath := (goAppend w d.docPath name).2, colNode := colNode })
  | none =>
    let w1 : World :=
      { w with
        colHeap := w.colHeap ++ [{ docNodes := fun _ => none }]
        docHeap := w.docHeap.set d.docNode
          { w.doc d.docNode with
            colNodes := mapAssign (w.doc d.docNode).colNodes name w.colHeap.length } }
    ((goAppend w1 d.docPath name).1,
     { colPath := (goAppend w1 d.docPath name).2, colNode := w.colHeap.length })

/-- The method `DocumentRefMock.Path`. -/
def DocumentRefMock.Path (d : DocumentRefMock) : GoSlice := d.docPath

/-- The key `strings.Join(d.Path(), "/")` of the fault maps. -/
def DocumentRefMock.faultKey (d : DocumentRefMock) (w : World) : String :=
  stringsJoin (w.readSlice d.Path)

/-- The assignment `d.docNode.data = x`, with `p` the pointer `d.docNode`. -/
def World.setData (w : World) (p : Nat) (x : GoVal) : World :=
  { w with docHeap := w.docHeap.set p { w.doc p with data := x } }

/-- A Go `error`: `none` is nil, `some msg` is `errors.New(msg)`. -/
abbrev GoError := Option String

/-- The method `DocumentRefMock.Set`. -/
def DocumentRefMock.Set (d : DocumentRefMock) (w : World) (dst : GoVal) : World × GoError :=
  if flagOf w.store.failsOnSet (d.faultKey w) then (w, some "fails on set")
  else (w.setData d.docNode dst, none)

/-- The method `DocumentRefMock.Merge`. -/
def DocumentRefMock.Merge (d : DocumentRefMock) (w : World) (dst : GoVal) : World × GoError :=
  if flagOf w.store.failsOnSet (d.faultKey w) then (w, some "fails on set")
  else (w.setData d.docNode dst, none)

/-- The struct `firestore.Update`, of which the double reads `Path` and `Value`. -/
structure Update where
  Path : String
  Value : GoVal

/-- The loop `for _, p := range patch { SetPathValue(d.docNode.data, p.Path, p.Value) }`; a
panic leaves the memory as the earlier patches made it. -/
def applyPatches (h : Heap) (data : GoVal) : List Update → Heap × Outcome GoError
  | [] => (h, .ret none)
  | p :: ps =>
    match SetPathValue h data p.Path p.Value with
    | .ret h1 => applyPatches h1 data ps
    | .panic msg => (h, .panic msg)

/-- The method `DocumentRefMock.Update`. -/
def DocumentRefMock.Update (d : DocumentRefMock) (w : World) (patch : List Update) :
    World × Outcome GoError :=
  if flagOf w.store.failsOnUpd (d.faultKey w) then (w, .ret (some "fails on update"))
  else if (w.doc d.docNode).data.isNil then (w, .ret (some "doesn't exist"))
  else
    ({ w with heap := (applyPatches w.heap (w.doc d.docNode).data patch).1 },
     (applyPatches w.heap (w.doc d.docNode).data patch).2)

/-- The method `DocumentRefMock.Delete`. -/
def DocumentRefMock.Delete (d : DocumentRefMock) (w : World) : World × GoError :=
  if flagOf w.store.failsOnDel (d.faultKey w) then (w, some "fails on delete")
  else (w.setData d.docNode .nil, none)

/-- Package `encoding/json`, a library outside the repository, as `Get` uses it:
`marshal h x` is the byte slice that `json.Marshal(x)` returns when the value memory is `h`
(the nil slice when it returns an error), and `unmarshal h bytes dst` is the value memory after
`json.Unmarshal(bytes, dst)`, whether or not that call returns an error. -/
structure Json where
  marshal : Heap → GoVal → List Nat
  unmarshal : Heap → List Nat → GoVal → Heap

/-- What a call of `DocumentRefMock.Get` leaves: its two results and the value memory after the
call.  `Get` writes nothing but what `json.Unmarshal` writes through `dst`, so the store, the
nodes and the path arrays are as before the call. -/
structure GetResult where
  found : Bool
  err : GoError
  heap : Heap

/-- The method `DocumentRefMock.Get`, called with `dst`:
`bytes, _ := json.Marshal(d.docNode.data); json.Unmarshal(bytes, dst); return true, nil`, both
errors dropped. -/
def DocumentRefMock.Get (d : DocumentRefMock) (J : Json) (w : World) (dst : GoVal) : GetResult :=
  if flagOf w.store.failsOnGet (d.faultKey w) then ⟨false, some "fails on get", w.heap⟩
  else if (w.doc d.docNode).data.isNil then ⟨false, none, w.heap⟩
  else ⟨true, none, J.unmarshal w.heap (J.marshal w.heap (w.doc d.docNode).data) dst⟩

/-! ## Batches -/

/-- The struct `BatchElement`. -/
structure BatchElement where
  docRef : DocumentRefMock
  method : String
  data : GoVal
  patch : List Update

/-- The struct `BatchMock`. -/
structure BatchMock where
  elements : List BatchElement

/-- The method `StoreMock.Batch`. -/
def StoreMock.Batch : BatchMock := { elements := [] }

/-- The method `BatchMock.Set`.  Like every method it is a step of the program state, here the
world and the batch; it leaves the world as it is. -/
def BatchMock.Set (b : BatchMock) (w : World) (ref : DocumentRefMock) (src : GoVal) :
    World × BatchMock :=
  (w, { b with
    elements := b.elements ++ [{ docRef := ref, method := "set", data := src, patch := [] }] })

/-- The method `BatchMock.Merge`. -/
def BatchMock.Merge (b : BatchMock) (w : World) (ref : DocumentRefMock) (src : GoVal) :
    World × BatchMock :=
  (w, { b with
    elements := b.elements ++ [{ docRef := ref, method := "merge", data := src, patch := [] }] })

/-- The method `BatchMock.Update`. -/
def BatchMock.Update (b : BatchMock) (w : World) (ref : DocumentRefMock) (patch : List Update) :
    World × BatchMock :=
  (w, { b with
    elements :=
      b.elements ++ [{ docRef := ref, method := "update", data := .nil, patch := patch }] })

/-- The `switch el.method` statement of `BatchMock.Commit`: the world after the call it makes
and what that call returned (`Set` and `Merge` cannot panic, `Update` can; an element with
another method makes no call). -/
def replayElement (w : World) (el : BatchElement) : World × Outcome GoError :=
  if el.method = "set" then ((el.docRef.Set w el.data).1, .ret (el.docRef.Set w el.data).2)
  else if el.method = "update" then el.docRef.Update w el.patch
  else if el.method = "merge" then
    ((el.docRef.Merge w el.data).1, .ret (el.docRef.Merge w el.data).2)
  else (w, .ret none)

/-- The loop `for _, el := range b.elements` of `BatchMock.Commit` over the remaining elements,
followed by `return nil`.  What a call returns is dropped; a panic ends `Commit`. -/
def commitLoop (w : World) : List BatchElement → World × Outcome GoError
  | [] => (w, .ret none)
  | el :: els =>
    match (replayElement w el).2 with
    | .ret _ => commitLoop (replayElement w el).1 els
    | .panic msg => ((replayElement w el).1, .panic msg)

/-- The method `BatchMock.Commit`. -/
def BatchMock.Commit (b : BatchMock) (w : World) : World × Outcome GoError :=
  commitLoop w b.elements

/-! ## Programs using the double -/

/-- The path of a document: `col/id` followed by further `collection/id` pairs. -/
structure DocPath where
  col : String
  id : String
  more : List (String × String)
deriving DecidableEq

/-- The segments of a document path. -/
def DocPath.segments (p : DocPath) : List String :=
  p.col :: p.id :: p.more.flatMap fun x => [x.1, x.2]

/-- The navigation `d.Collection(name1).Doc(id1).Collection(name2).Doc(id2)...`. -/
def navFrom (w : World) (d : DocumentRefMock) : List (String × String) → World × DocumentRefMock
  | [] => (w, d)
  | x :: rest =>
    let r1 := d.Collection w x.1
    let r2 := r1.2.Doc r1.1 x.2
    navFrom r2.1 r2.2 rest

/-- The navigation `s.Collection(p.col).Doc(p.id)...` from the store to a document. -/
def navDoc (w : World) (p : DocPath) : World × DocumentRefMock :=
  let r1 := StoreMock.Collection w p.col
  let r2 := r1.2.Doc r1.1 p.id
  navFrom r2.1 r2.2 p.more

/-- One call on a batch, its target given by the path the reference is navigated to. -/
inductive BatchCall where
  | set (p : DocPath) (src : GoVal)
  | merge (p : DocPath) (src : GoVal)
  | update (p : DocPath) (patch : List Update)

/-- Obtain the reference and queue the call. -/
def queueCall (wb : World × BatchMock) : BatchCall → World × BatchMock
  | .set p src => wb.2.Set (navDoc wb.1 p).1 (navDoc wb.1 p).2 src
  | .merge p src => wb.2.Merge (navDoc wb.1 p).1 (navDoc wb.1 p).2 src
  | .update p patch => wb.2.Update (navDoc wb.1 p).1 (navDoc wb.1 p).2 patch

/-- One action of a program that uses the store through its exported functions.  References
are obtained by navigating from the store (a reference that is kept instead leads to the same
node as a new navigation to its path); `get` calls `Get` with the destination `dst`, `J` being
what `encoding/json` does in that call; `client` is the program changing the memory of its own
values in any way, which covers `SetPathValue` called directly. -/
inductive Op where
  | navDoc (p : DocPath)
  | navCol (parent : Option DocPath) (name : String)
  | get (p : DocPath) (J : Json) (dst : GoVal)
  | set (p : DocPath) (dst : GoVal)
  | merge (p : DocPath) (dst : GoVal)
  | update (p : DocPath) (patch : List Update)
  | delete (p : DocPath)
  | failsOnGet (path : String) (fails : Bool)
  | failsOnSet (path : String) (fails : Bool)
  | failsOnDel (path : String) (fails : Bool)
  | failsOnUpdate (path : String) (fails : Bool)
  | batch (calls : List BatchCall)
  | client (heap : Heap)

/-- The world after one action. -/
def step (w : World) : Op → World
  | .navDoc p => (navDoc w p).1
  | .navCol none name => (StoreMock.Collection w name).1
  | .navCol (some p) name => ((navDoc w p).2.Collection (navDoc w p).1 name).1
  | .get p J dst =>
    { (navDoc w p).1 with heap := ((navDoc w p).2.Get J (navDoc w p).1 dst).heap }
  | .set p dst => ((navDoc w p).2.Set (navDoc w p).1 dst).1
  | .merge p dst => ((navDoc w p).2.Merge (navDoc w p).1 dst).1
  | .update p patch => ((navDoc w p).2.Update (navDoc w p).1 patch).1
  | .delete p => ((navDoc w p).2.Delete (navDoc w p).1).1
  | .failsOnGet path fails => FailsOnGet w path fails
  | .failsOnSet path fails => FailsOnSet w path fails
  | .failsOnDel path fails => FailsOnDel w path fails
  | .failsOnUpdate path fails => FailsOnUpdate w path fails
  | .batch calls =>
    ((calls.foldl queueCall (w, StoreMock.Batch)).2.Commit
      (calls.foldl queueCall (w, StoreMock.Batch)).1).1
  | .client heap => { w with heap := heap }

/-- The world after a sequence of actions. -/
def run (w : World) (ops : List Op) : World := ops.foldl step w

/-- A batch call stores a whole value at the document `p`. -/
def BatchCall.writes (p : DocPath) : BatchCall → Prop
  | .set q _ => q = p
  | .merge q _ => q = p
  | .update _ _ => False

/-- An action stores a whole value at the document `p` (`Set` or `Merge`, directly or through a
committed batch). -/
def Op.writes (p : DocPath) : Op → Prop
  | .set q _ => q = p
  | .merge q _ => q = p
  | .batch calls => ∃ c ∈ calls, c.writes p
  | _ => False

/-! ## Invariants of the node tree -/

/-- The node a document path leads to from the document node `d`, without creating anything. -/
def resolveFrom (w : World) (d : Nat) : List (String × String) → Option Nat
  | [] => some d
  | x :: rest =>
    match (w.doc d).colNodes x.1 with
    | none => none
    | some c =>
      match (w.col c).docNodes x.2 with
      | none => none
      | some d2 => resolveFrom w d2 rest

/-- The node a document path leads to from the store, without creating anything. -/
def resolveDoc (w : World) (p : DocPath) : Option Nat :=
  match w.store.rootNode.colNodes p.col with
  | none => none
  | some c =>
    match (w.col c).docNodes p.id with
    | none => none
    | some d => resolveFrom w d p.more

/-- No fault flag is set. -/
structure NoFaults (w : World) : Prop where
  get : ∀ k, flagOf w.store.failsOnGet k = false
  set : ∀ k, flagOf w.store.failsOnSet k = false
  del : ∀ k, flagOf w.store.failsOnDel k = false
  upd : ∀ k, flagOf w.store.failsOnUpd k = false

/-- The node heaps form a tree: every link leads to an allocated node, and every node has one
position (`posC` for collection nodes, `posD` for document nodes), the sequence of keys leading
to it. -/
structure TreeAt (w : World) (posC posD : Nat → List String) : Prop where
  root : ∀ name c, w.store.rootNode.colNodes name = some c →
    c < w.colHeap.length ∧ posC c = [name]
  col : ∀ p id d, (w.col p).docNodes id = some d →
    d < w.docHeap.length ∧ posD d = posC p ++ [id]
  doc : ∀ p name c, (w.doc p).colNodes name = some c →
    c < w.colHeap.length ∧ posC c = posD p ++ [name]

/-- The node heaps form a tree. -/
def Tree (w : World) : Prop := ∃ posC posD, TreeAt w posC posD

/-- The world `w2` has every link of `w1`, the same fault flags, the same value memory and the
same data in every document node. -/
structure Grows (w1 w2 : World) : Prop where
  fGet : w2.store.failsOnGet = w1.store.failsOnGet
  fSet : w2.store.failsOnSet = w1.store.failsOnSet
  fDel : w2.store.failsOnDel = w1.store.failsOnDel
  fUpd : w2.store.failsOnUpd = w1.store.failsOnUpd
  heap : w2.heap = w1.heap
  root : ∀ name c, w1.store.rootNode.colNodes name = some c →
    w2.store.rootNode.colNodes name = some c
  data : ∀ p, (w2.doc p).data = (w1.doc p).data
  doc : ∀ p name c, (w1.doc p).colNodes name = some c → (w2.doc p).colNodes name = some c
  col : ∀ p id d, (w1.col p).docNodes id = some d → (w2.col p).docNodes id = some d
  colLen : w1.colHeap.length ≤ w2.colHeap.length
  docLen : w1.docHeap.length ≤ w2.docHeap.length

/-- What holds of every world a program can reach: the nodes form a tree and no fault flag is
set. -/
structure Sound (w : World) : Prop where
  tree : Tree w
  noFaults : NoFaults w

/-- Every document node that holds data lies at a path other than `p`. -/
def Untouched (p : DocPath) (w : World) : Prop :=
  ∀ n, (w.doc n).data.isNil = false → ∃ q, q ≠ p ∧ resolveDoc w q = some n

/-- Every queued `set` or `merge` element targets a node at a path other than `p`. -/
def ElementsAvoid (p : DocPath) (w : World) (els : List BatchElement) : Prop :=
  ∀ el ∈ els, el.method = "set" ∨ el.method = "merge" →
    ∃ q, q ≠ p ∧ resolveDoc w q = some el.docRef.docNode

/-- A memory holding one map object, `{a: 1, b: 2}`, at address 0. -/
def heapAB : Heap where
  maps := fun a =>
    if a = 0 then
      some fun k => if k = "a" then some (.int 1) else if k = "b" then some (.int 2) else none
    else none
  vars := fun _ => none

/-! ## Writes made directly, to compare a batch with -/

/-- A write on a document reference, as a program makes it outside of a batch (or asks a batch
to queue it). -/
inductive DirectCall where
  | set (ref : DocumentRefMock) (src : GoVal)
  | merge (ref : DocumentRefMock) (src : GoVal)
  | update (ref : DocumentRefMock) (patch : List Update)

/-- Ask the batch to queue the write: `b.Set(ref, src)`, `b.Merge(ref, src)` or
`b.Update(ref, patch)`. -/
def DirectCall.queue (wb : World × BatchMock) : DirectCall → World × BatchMock
  | .set ref src => wb.2.Set wb.1 ref src
  | .merge ref src => wb.2.Merge wb.1 ref src
  | .update ref patch => wb.2.Update wb.1 ref patch

/-- Make the write directly: `ref.Set(src)`, `ref.Merge(src)` or `ref.Update(patch)`. -/
def DirectCall.perform (w : World) : DirectCall → World × Outcome GoError
  | .set ref src => ((ref.Set w src).1, .ret (ref.Set w src).2)
  | .merge ref src => ((ref.Merge w src).1, .ret (ref.Merge w src).2)
  | .update ref patch => ref.Update w patch

/-- The spec's reading of a commit: the writes made directly, one after another, in the order
given, whatever errors they return; a panic ends the program at that write. -/
def performInOrder (w : World) : List DirectCall → World
  | [] => w
  | c :: cs =>
    match (c.perform w).2 with
    | .ret _ => performInOrder (c.perform w).1 cs
    | .panic _ => (c.perform w).1

/-- The batch element that stands for a queued write. -/
def DirectCall.element : DirectCall → BatchElement
  | .set ref src => { docRef := ref, method := "set", data := src, patch := [] }
  | .merge ref src => { docRef := ref, method := "merge", data := src, patch := [] }
  | .update ref patch => { docRef := ref, method := "update", data := .nil, patch := patch }

/-! ## Small concrete programs -/

/-- A reference to the document `c/a` of a new store. -/
def docA : DocumentRefMock := (navDoc (MockStore Heap.empty) ⟨"c", "a", []⟩).2

/-- A reference to the document `c/b` of the same store. -/
def docB : DocumentRefMock :=
  (navDoc (navDoc (MockStore Heap.empty) ⟨"c", "a", []⟩).1 ⟨"c", "b", []⟩).2

/-- The store after the two navigations: `c/a` and `c/b` exist as nodes and hold no data. -/
def worldAB : World :=
  (navDoc (navDoc (MockStore Heap.empty) ⟨"c", "a", []⟩).1 ⟨"c", "b", []⟩).1

/-- The batch with `Update(docA, [("x", 1)])` queued first and `Set(docB, 7)` second. -/
def batchUpdateThenSet : BatchMock :=
  ((StoreMock.Batch.Update worldAB docA [⟨"x", .int 1⟩]).2.Set worldAB docB (.int 7)).2

/-- The record `Customer{Name: "Ann", Addr: Address{City: "Paris", Zip: "75001"}}`, its fields
tagged `firestore:"name"`, `"addr"`, `"city"` and `"zip"`. -/
def customerRecord : GoVal :=
  .struct "Customer"
    [⟨"name", true, .string, .str "Ann"⟩,
     ⟨"addr", true, .struct "Address",
        .struct "Address" [⟨"city", true, .string, .str "Paris"⟩,
          ⟨"zip", true, .string, .str "75001"⟩]⟩]

/-- A memory holding one variable of type `Customer`, at address 0. -/
def heapCustomer : Heap where
  maps := fun _ => none
  vars := fun a => if a = 0 then some ⟨.struct "Customer", customerRecord⟩ else none

/-! ## The reference lookup of the field-path resolver -/

/-- The spec's `get(object, path)`: the empty path gives the object; on a keyed mapping a
missing key gives the absent result and a present one is followed; on a record the first field
whose declared external name equals the segment is followed and a record without such a field
gives the absent result.  It has no way to fail. -/
def referenceGet (h : Heap) (object : GoVal) : List String → GoVal
  | [] => object
  | seg :: rest =>
    match reflectTarget h object with
    | none => .nil
    | some v =>
      match v.typ with
      | .map =>
        match mapIndex h v.val seg with
        | none => .nil
        | some entry => referenceGet h entry rest
      | .struct _ =>
        match v.val with
        | .struct _ fs =>
          match findField seg 0 fs with
          | some (_, f) => referenceGet h f.val rest
          | none => .nil
        | _ => .nil
      | _ => .nil

/-- The record `Account{Owner: "Ann", secret: "s3"}`: the second field is unexported and carries
the tag `firestore:"secret"`. -/
def accountRecord : GoVal :=
  .struct "Account"
    [⟨"owner", true, .string, .str "Ann"⟩, ⟨"secret", false, .string, .str "s3"⟩]

/-! ## Path slices -/

/-- The slice header is well formed: its backing array exists, has the length `cap`, and
`len ≤ cap` (true of every Go slice). -/
def ValidSlice (w : World) (s : GoSlice) : Prop :=
  ∃ a, w.arrays[s.arr]? = some a ∧ a.length = s.cap ∧ s.len ≤ s.cap

/-- The collection reference `s.Collection("a").Doc("x").Collection("b")` of a new store, with
the world it is obtained in. -/
def nestedCollection : World × CollectionRefMock :=
  (navDoc (MockStore Heap.empty) ⟨"a", "x", []⟩).2.Collection
    (navDoc (MockStore Heap.empty) ⟨"a", "x", []⟩).1 "b"

/-- The call `da := c.Doc("y")` on that collection reference. -/
def firstDoc : World × DocumentRefMock :=
  nestedCollection.2.Doc nestedCollection.1 "y"

/-- The call `db := c.Doc("z")` on the same collection reference, made after `da` was
obtained. -/
def secondDoc : World × DocumentRefMock :=
  nestedCollection.2.Doc firstDoc.1 "z"

/-! ## Fault flags and locality: concrete states -/

/-- The world `worldAB` with the update fault flag of `c/a` set to true.  The exported setters
cannot produce it; code of the package can, by writing the map `failsOnUpd`. -/
def worldArmed : World :=
  { worldAB with
    store := { worldAB.store with failsOnUpd := mapAssign worldAB.store.failsOnUpd "c/a" true } }

/-- The gRPC status code `codes.NotFound`. -/
def codesNotFound : Nat := 5

/-- The method `DocumentRefImpl.Get`.  `err` is the error that `d.docRef.Get(d.ctx)` of the
firestore client returned (`none` for nil) and `statusCode` is `status.Code` of the gRPC
library; on success the snapshot is copied into `dst` by `snap.DataTo(dst)`, whose result is
dropped. -/
def DocumentRefImpl.Get {E : Type} (statusCode : E → Nat) (err : Option E) : Bool × Option E :=
  match err with
  | some e => if statusCode e = codesNotFound then (false, none) else (false, some e)
  | none => (true, none)

/-- The function `toFirestoreDocRef`, on the path that `docRef.Path()` returns.  `rootDoc c d`
is the backend call `client.Collection(c).Doc(d)` and `subDoc r c d` is
`r.Collection(c).Doc(d)`.  The loop `for i := 2; i < pathLength; i += 2` runs once for every
even `i` with `2 ≤ i < pathLength`; its body reads `path[0]` and `path[1]`. -/
def toFirestoreDocRef {R : Type} (rootDoc : String → String → R)
    (subDoc : R → String → String → R) (path : List String) : Option R :=
  if path.length = 0 ∨ path.length % 2 = 1 then none
  else
    some (((List.range path.length).filter fun i => 2 ≤ i ∧ i % 2 = 0).foldl
      (fun documentRef _ => subDoc documentRef (path.getD 0 "") (path.getD 1 ""))
      (rootDoc (path.getD 0 "") (path.getD 1 "")))

/-- The document that a path names: collection `path[0]`, document `path[1]`, then for every
further pair collection `path[i]`, document `path[i+1]`; nothing for an empty or odd-length
path. -/
def addressedDocRef {R : Type} (rootDoc : String → String → R)
    (subDoc : R → String → String → R) (path : List String) : Option R :=
  if path.length = 0 ∨ path.length % 2 = 1 then none
  else
    some (((List.range path.length).filter fun i => 2 ≤ i ∧ i % 2 = 0).foldl
      (fun documentRef i => subDoc documentRef (path.getD i "") (path.getD (i + 1) ""))
      (rootDoc (path.getD 0 "") (path.getD 1 "")))

/-- A backend document reference, identified by the segments it was built from. -/
def backendRootDoc (c d : String) : List String := [c, d]

/-- The document `d` of the sub-collection `c` under a backend document reference. -/
def backendSubDoc (r : List String) (c d : String) : List String := r ++ [c, d]

/-! ## Memory lemmas -/

theorem col_links_lt (w : World) (p : Nat) (id : String) (d : Nat)
    (h : (w.col p).docNodes id = some d) : p < w.colHeap.length := by
  by_contra hp
  have : w.colHeap[p]? = none := List.getElem?_eq_none (by omega)
  simp [World.col, this] at h

theorem doc_links_lt (w : World) (p : Nat) (name : String) (c : Nat)
    (h : (w.doc p).colNodes name = some c) : p < w.docHeap.length := by
  by_contra hp
  have : w.docHeap[p]? = none := List.getElem?_eq_none (by omega)
  simp [World.doc, this] at h

theorem doc_data_of_ge (w : World) (p : Nat) (h : w.docHeap.length ≤ p) :
    (w.doc p).data = .nil := by
  have : w.docHeap[p]? = none := List.getElem?_eq_none (by omega)
  simp [World.doc, this]

theorem doc_eq_of_heap {w w2 : World} (h : w2.docHeap = w.docHeap) (p : Nat) :
    w2.doc p = w.doc p := by
  simp [World.doc, h]

theorem col_eq_of_heap {w w2 : World} (h : w2.colHeap = w.colHeap) (p : Nat) :
    w2.col p = w.col p := by
  simp [World.col, h]

theorem doc_of_append {w w2 : World} {n : DocNode} (h : w2.docHeap = w.docHeap ++ [n])
    (p : Nat) : w2.doc p = if p = w.docHeap.length then n else w.doc p := by
  by_cases hp : p = w.docHeap.length
  · subst hp
    simp [World.doc, h]
  · simp only [World.doc, h, hp, if_false]
    rcases Nat.lt_or_ge p w.docHeap.length with hlt | hge
    · rw [List.getElem?_append_left hlt]
    · have h1 : (w.docHeap ++ [n])[p]? = none :=
        List.getElem?_eq_none (by simp; omega)
      have h2 : w.docHeap[p]? = none := List.getElem?_eq_none hge
      rw [h1, h2]

theorem col_of_append {w w2 : World} {n : ColNode} (h : w2.colHeap = w.colHeap ++ [n])
    (p : Nat) : w2.col p = if p = w.colHeap.length then n else w.col p := by
  by_cases hp : p = w.colHeap.length
  · subst hp
    simp [World.col, h]
  · simp only [World.col, h, hp, if_false]
    rcases Nat.lt_or_ge p w.colHeap.length with hlt | hge
    · rw [List.getElem?_append_left hlt]
    · have h1 : (w.colHeap ++ [n])[p]? = none :=
        List.getElem?_eq_none (by simp; omega)
      have h2 : w.colHeap[p]? = none := List.getElem?_eq_none hge
      rw [h1, h2]

theorem doc_of_set {w w2 : World} {q : Nat} {n : DocNode} (h : w2.docHeap = w.docHeap.set q n)
    (p : Nat) : w2.doc p = if p = q ∧ q < w.docHeap.length then n else w.doc p := by
  simp only [World.doc, h, List.getElem?_set]
  by_cases hqp : q = p
  · subst hqp
    by_cases hlt : q < w.docHeap.length
    · simp [hlt]
    · have h2 : w.docHeap[q]? = none := List.getElem?_eq_none (by omega)
      simp [hlt, h2]
  · have : ¬ p = q := fun e => hqp e.symm
    simp [hqp, this]

theorem col_of_set {w w2 : World} {q : Nat} {n : ColNode} (h : w2.colHeap = w.colHeap.set q n)
    (p : Nat) : w2.col p = if p = q ∧ q < w.colHeap.length then n else w.col p := by
  simp only [World.col, h, List.getElem?_set]
  by_cases hqp : q = p
  · subst hqp
    by_cases hlt : q < w.colHeap.length
    · simp [hlt]
    · have h2 : w.colHeap[q]? = none := List.getElem?_eq_none (by omega)
      simp [hlt, h2]
  · have : ¬ p = q := fun e => hqp e.symm
    simp [hqp, this]

/-! ## Path slices never touch the nodes -/

theorem goAppend_store (w : World) (s : GoSlice) (x : String) :
    (goAppend w s x).1.store = w.store := by
  unfold goAppend; split <;> rfl

theorem goAppend_colHeap (w : World) (s : GoSlice) (x : String) :
    (goAppend w s x).1.colHeap = w.colHeap := by
  unfold goAppend; split <;> rfl

theorem goAppend_docHeap (w : World) (s : GoSlice) (x : String) :
    (goAppend w s x).1.docHeap = w.docHeap := by
  unfold goAppend; split <;> rfl

theorem goAppend_heap (w : World) (s : GoSlice) (x : String) :
    (goAppend w s x).1.heap = w.heap := by
  unfold goAppend; split <;> rfl

theorem Grows.refl (w : World) : Grows w w :=
  ⟨rfl, rfl, rfl, rfl, rfl, fun _ _ h => h, fun _ => rfl, fun _ _ _ h => h, fun _ _ _ h => h,
    Nat.le_refl _, Nat.le_refl _⟩

theorem Grows.trans {w1 w2 w3 : World} (a : Grows w1 w2) (b : Grows w2 w3) : Grows w1 w3 :=
  ⟨b.fGet.trans a.fGet, b.fSet.trans a.fSet, b.fDel.trans a.fDel, b.fUpd.trans a.fUpd,
    b.heap.trans a.heap, fun n c h => b.root n c (a.root n c h),
    fun p => (b.data p).trans (a.data p), fun p n c h => b.doc p n c (a.doc p n c h),
    fun p i d h => b.col p i d (a.col p i d h), Nat.le_trans a.colLen b.colLen,
    Nat.le_trans a.docLen b.docLen⟩

/-- A step that changes nothing but the path arrays. -/
theorem Grows.of_same {w w2 : World} (hs : w2.store = w.store) (hc : w2.colHeap = w.colHeap)
    (hd : w2.docHeap = w.docHeap) (hh : w2.heap = w.heap) : Grows w w2 := by
  refine ⟨by rw [hs], by rw [hs], by rw [hs], by rw [hs], hh, ?_, ?_, ?_, ?_, by rw [hc],
    by rw [hd]⟩
  · intro n c h; rw [hs]; exact h
  · intro p; rw [doc_eq_of_heap hd]
  · intro p n c h; rw [doc_eq_of_heap hd]; exact h
  · intro p i d h; rw [col_eq_of_heap hc]; exact h

theorem TreeAt.of_same_nodes {w w2 : World} {posC posD : Nat → List String}
    (t : TreeAt w posC posD) (hs : w2.store = w.store) (hc : w2.colHeap = w.colHeap)
    (hd : w2.docHeap = w.docHeap) : TreeAt w2 posC posD := by
  refine ⟨?_, ?_, ?_⟩
  · intro n c h; rw [hs] at h; rw [hc]; exact t.root n c h
  · intro p i d h; rw [col_eq_of_heap hc] at h; rw [hd]; exact t.col p i d h
  · intro p n c h; rw [doc_eq_of_heap hd] at h; rw [hc]; exact t.doc p n c h

/-! ## `StoreMock.Collection` -/

theorem Collection_of_link {w : World} {name : String} {c : Nat}
    (h : w.store.rootNode.colNodes name = some c) :
    (StoreMock.Collection w name).2.colNode = c ∧
    (StoreMock.Collection w name).1.store = w.store ∧
    (StoreMock.Collection w name).1.colHeap = w.colHeap ∧
    (StoreMock.Collection w name).1.docHeap = w.docHeap ∧
    (StoreMock.Collection w name).1.heap = w.heap := by
  simp [StoreMock.Collection, h, sliceLit]

theorem Collection_of_none {w : World} {name : String}
    (h : w.store.rootNode.colNodes name = none) :
    (StoreMock.Collection w name).2.colNode = w.colHeap.length ∧
    (StoreMock.Collection w name).1.store.rootNode.colNodes =
      mapAssign w.store.rootNode.colNodes name w.colHeap.length ∧
    (StoreMock.Collection w name).1.store.failsOnGet = w.store.failsOnGet ∧
    (StoreMock.Collection w name).1.store.failsOnSet = w.store.failsOnSet ∧
    (StoreMock.Collection w name).1.store.failsOnDel = w.store.failsOnDel ∧
    (StoreMock.Collection w name).1.store.failsOnUpd = w.store.failsOnUpd ∧
    (StoreMock.Collection w name).1.colHeap = w.colHeap ++ [{ docNodes := fun _ => none }] ∧
    (StoreMock.Collection w name).1.docHeap = w.docHeap ∧
    (StoreMock.Collection w name).1.heap = w.heap := by
  simp [StoreMock.Collection, h, sliceLit]

theorem Collection_link (w : World) (name : String) :
    (StoreMock.Collection w name).1.store.rootNode.colNodes name =
      some (StoreMock.Collection w name).2.colNode := by
  cases h : w.store.rootNode.colNodes name with
  | some c =>
    obtain ⟨h1, h2, -⟩ := Collection_of_link h
    rw [h1, h2, h]
  | none =>
    obtain ⟨h1, h2, -⟩ := Collection_of_none h
    rw [h1, h2]; simp [mapAssign]

theorem Collection_grows (w : World) (name : String) :
    Grows w (StoreMock.Collection w name).1 := by
  cases h : w.store.rootNode.colNodes name with
  | some c =>
    obtain ⟨-, h2, h3, h4, h5⟩ := Collection_of_link h
    exact Grows.of_same h2 h3 h4 h5
  | none =>
    obtain ⟨-, h2, g1, g2, g3, g4, h3, h4, h5⟩ := Collection_of_none h
    refine ⟨g1, g2, g3, g4, h5, ?_, ?_, ?_, ?_, by rw [h3]; simp, by rw [h4]⟩
    · intro n c hn
      rw [h2]
      have : n ≠ name := by rintro rfl; rw [h] at hn; cases hn
      simp [mapAssign, this, hn]
    · intro p; rw [doc_eq_of_heap h4]
    · intro p n c hn; rw [doc_eq_of_heap h4]; exact hn
    · intro p i d hp
      have hlt := col_links_lt w p i d hp
      rw [col_of_append h3, if_neg (by omega)]; exact hp

theorem Collection_tree (w : World) (name : String) (t : Tree w) :
    Tree (StoreMock.Collection w name).1 := by
  obtain ⟨posC, posD, t⟩ := t
  cases h : w.store.rootNode.colNodes name with
  | some c =>
    obtain ⟨-, h2, h3, h4, -⟩ := Collection_of_link h
    exact ⟨posC, posD, t.of_same_nodes h2 h3 h4⟩
  | none =>
    obtain ⟨-, h2, -, -, -, -, h3, h4, -⟩ := Collection_of_none h
    refine ⟨fun c => if c = w.colHeap.length then [name] else posC c, posD, ?_, ?_, ?_⟩
    · intro n c hn
      rw [h2] at hn
      rw [h3]
      by_cases hname : n = name
      · subst hname
        simp [mapAssign] at hn
        subst hn
        simp
      · simp [mapAssign, hname] at hn
        obtain ⟨hlt, hpos⟩ := t.root n c hn
        simp only [List.length_append, List.length_singleton]
        refine ⟨by omega, ?_⟩
        rw [if_neg (by omega)]; exact hpos
    · intro p i d hp
      rw [col_of_append h3] at hp
      by_cases hpl : p = w.colHeap.length
      · rw [if_pos hpl] at hp; cases hp
      · rw [if_neg hpl] at hp
        rw [h4, if_neg hpl]
        exact t.col p i d hp
    · intro p n c hp
      rw [doc_eq_of_heap h4] at hp
      obtain ⟨hlt, hpos⟩ := t.doc p n c hp
      rw [h3]
      simp only [List.length_append, List.length_singleton]
      refine ⟨by omega, ?_⟩
      rw [if_neg (by omega)]; exact hpos

/-! ## `CollectionRefMock.Doc` -/

theorem Doc_of_link {w : World} {c : CollectionRefMock} {id : String} {d : Nat}
    (h : (w.col c.colNode).docNodes id = some d) :
    (c.Doc w id).2.docNode = d ∧
    (c.Doc w id).1.store = w.store ∧
    (c.Doc w id).1.colHeap = w.colHeap ∧
    (c.Doc w id).1.docHeap = w.docHeap ∧
    (c.Doc w id).1.heap = w.heap := by
  simp [CollectionRefMock.Doc, h, goAppend_store, goAppend_colHeap, goAppend_docHeap,
    goAppend_heap]

theorem Doc_of_none {w : World} {c : CollectionRefMock} {id : String}
    (h : (w.col c.colNode).docNodes id = none) :
    (c.Doc w id).2.docNode = w.docHeap.length ∧
    (c.Doc w id).1.store = w.store ∧
    (c.Doc w id).1.colHeap = w.colHeap.set c.colNode
      { docNodes := mapAssign (w.col c.colNode).docNodes id w.docHeap.length } ∧
    (c.Doc w id).1.docHeap =
      w.docHeap ++ [{ id := id, data := .nil, colNodes := fun _ => none }] ∧
    (c.Doc w id).1.heap = w.heap := by
  simp [CollectionRefMock.Doc, h, goAppend_store, goAppend_colHeap, goAppend_docHeap,
    goAppend_heap]

theorem Doc_link (w : World) (c : CollectionRefMock) (id : String)
    (hc : c.colNode < w.colHeap.length) :
    ((c.Doc w id).1.col c.colNode).docNodes id = some (c.Doc w id).2.docNode := by
  cases h : (w.col c.colNode).docNodes id with
  | some d =>
    obtain ⟨h1, -, h3, -⟩ := Doc_of_link h
    rw [h1, col_eq_of_heap h3, h]
  | none =>
    obtain ⟨h1, -, h3, -⟩ := Doc_of_none h
    rw [h1, col_of_set h3, if_pos ⟨rfl, hc⟩]; simp [mapAssign]

theorem Doc_grows (w : World) (c : CollectionRefMock) (id : String) :
    Grows w (c.Doc w id).1 := by
  cases h : (w.col c.colNode).docNodes id with
  | some d =>
    obtain ⟨-, h2, h3, h4, h5⟩ := Doc_of_link h
    exact Grows.of_same h2 h3 h4 h5
  | none =>
    obtain ⟨-, h2, h3, h4, h5⟩ := Doc_of_none h
    refine ⟨by rw [h2], by rw [h2], by rw [h2], by rw [h2], h5, ?_, ?_, ?_, ?_,
      by rw [h3]; simp, by rw [h4]; simp⟩
    · intro n x hn; rw [h2]; exact hn
    · intro p
      rw [doc_of_append h4]
      by_cases hp : p = w.docHeap.length
      · rw [if_pos hp, doc_data_of_ge w p (by omega)]
      · rw [if_neg hp]
    · intro p n x hn
      have hlt := doc_links_lt w p n x hn
      rw [doc_of_append h4, if_neg (by omega)]; exact hn
    · intro p i d hp
      rw [col_of_set h3]
      by_cases hpc : p = c.colNode ∧ c.colNode < w.colHeap.length
      · rw [if_pos hpc]
        obtain ⟨rfl, -⟩ := hpc
        have : i ≠ id := by rintro rfl; rw [h] at hp; cases hp
        simp [mapAssign, this, hp]
      · rw [if_neg hpc]; exact hp

theorem Doc_tree (w : World) (c : CollectionRefMock) (id : String) (t : Tree w) :
    Tree (c.Doc w id).1 := by
  obtain ⟨posC, posD, t⟩ := t
  cases h : (w.col c.colNode).docNodes id with
  | some d =>
    obtain ⟨-, h2, h3, h4, -⟩ := Doc_of_link h
    exact ⟨posC, posD, t.of_same_nodes h2 h3 h4⟩
  | none =>
    obtain ⟨-, h2, h3, h4, -⟩ := Doc_of_none h
    refine ⟨posC, fun d => if d = w.docHeap.length then posC c.colNode ++ [id] else posD d,
      ?_, ?_, ?_⟩
    · intro n x hn
      rw [h2] at hn
      rw [h3, List.length_set]
      exact t.root n x hn
    · intro p i d hp
      rw [col_of_set h3] at hp
      rw [h4]
      simp only [List.length_append, List.length_singleton]
      by_cases hpc : p = c.colNode ∧ c.colNode < w.colHeap.length
      · rw [if_pos hpc] at hp
        obtain ⟨rfl, -⟩ := hpc
        by_cases hi : i = id
        · subst hi
          simp [mapAssign] at hp
          subst hp
          simp
        · simp [mapAssign, hi] at hp
          obtain ⟨hlt, hpos⟩ := t.col _ i d hp
          refine ⟨by omega, ?_⟩
          rw [if_neg (by omega)]; exact hpos
      · rw [if_neg hpc] at hp
        obtain ⟨hlt, hpos⟩ := t.col p i d hp
        refine ⟨by omega, ?_⟩
        rw [if_neg (by omega)]; exact hpos
    · intro p n x hp
      rw [doc_of_append h4] at hp
      by_cases hpl : p = w.docHeap.length
      · rw [if_pos hpl] at hp; cases hp
      · rw [if_neg hpl] at hp
        rw [h3, List.length_set, if_neg hpl]
        exact t.doc p n x hp

/-! ## `DocumentRefMock.Collection` -/

theorem subCollection_of_link {w : World} {d : DocumentRefMock} {name : String} {c : Nat}
    (h : (w.doc d.docNode).colNodes name = some c) :
    (d.Collection w name).2.colNode = c ∧
    (d.Collection w name).1.store = w.store ∧
    (d.Collection w name).1.colHeap = w.colHeap ∧
    (d.Collection w name).1.docHeap = w.docHeap ∧
    (d.Collection w name).1.heap = w.heap := by
  simp [DocumentRefMock.Collection, h, goAppend_store, goAppend_colHeap, goAppend_docHeap,
    goAppend_heap]

theorem subCollection_of_none {w : World} {d : DocumentRefMock} {name : String}
    (h : (w.doc d.docNode).colNodes name = none) :
    (d.Collection w name).2.colNode = w.colHeap.length ∧
    (d.Collection w name).1.store = w.store ∧
    (d.Collection w name).1.colHeap = w.colHeap ++ [{ docNodes := fun _ => none }] ∧
    (d.Collection w name).1.docHeap = w.docHeap.set d.docNode
      { w.doc d.docNode with
        colNodes := mapAssign (w.doc d.docNode).colNodes name w.colHeap.length } ∧
    (d.Collection w name).1.heap = w.heap := by
  simp [DocumentRefMock.Collection, h, goAppend_store, goAppend_colHeap, goAppend_docHeap,
    goAppend_heap]

theorem subCollection_link (w : World) (d : DocumentRefMock) (name : String)
    (hd : d.docNode < w.docHeap.length) :
    ((d.Collection w name).1.doc d.docNode).colNodes name =
      some (d.Collection w name).2.colNode := by
  cases h : (w.doc d.docNode).colNodes name with
  | some c =>
    obtain ⟨h1, -, -, h4, -⟩ := subCollection_of_link h
    rw [h1, doc_eq_of_heap h4, h]
  | none =>
    obtain ⟨h1, -, -, h4, -⟩ := subCollection_of_none h
    rw [h1, doc_of_set h4, if_pos ⟨rfl, hd⟩]; simp [mapAssign]

theorem subCollection_grows (w : World) (d : DocumentRefMock) (name : String) :
    Grows w (d.Collection w name).1 := by
  cases h : (w.doc d.docNode).colNodes name with
  | some c =>
    obtain ⟨-, h2, h3, h4, h5⟩ := subCollection_of_link h
    exact Grows.of_same h2 h3 h4 h5
  | none =>
    obtain ⟨-, h2, h3, h4, h5⟩ := subCollection_of_none h
    refine ⟨by rw [h2], by rw [h2], by rw [h2], by rw [h2], h5, ?_, ?_, ?_, ?_,
      by rw [h3]; simp, by rw [h4]; simp⟩
    · intro n x hn; rw [h2]; exact hn
    · intro p
      rw [doc_of_set h4]
      by_cases hpd : p = d.docNode ∧ d.docNode < w.docHeap.length
      · rw [if_pos hpd]; obtain ⟨rfl, -⟩ := hpd; rfl
      · rw [if_neg hpd]
    · intro p n x hn
      rw [doc_of_set h4]
      by_cases hpd : p = d.docNode ∧ d.docNode < w.docHeap.length
      · rw [if_pos hpd]
        obtain ⟨rfl, -⟩ := hpd
        have : n ≠ name := by rintro rfl; rw [h] at hn; cases hn
        simp [mapAssign, this, hn]
      · rw [if_neg hpd]; exact hn
    · intro p i x hp
      have hlt := col_links_lt w p i x hp
      rw [col_of_append h3, if_neg (by omega)]; exact hp

theorem subCollection_tree (w : World) (d : DocumentRefMock) (name : String) (t : Tree w) :
    Tree (d.Collection w name).1 := by
  obtain ⟨posC, posD, t⟩ := t
  cases h : (w.doc d.docNode).colNodes name with
  | some c =>
    obtain ⟨-, h2, h3, h4, -⟩ := subCollection_of_link h
    exact ⟨posC, posD, t.of_same_nodes h2 h3 h4⟩
  | none =>
    obtain ⟨-, h2, h3, h4, -⟩ := subCollection_of_none h
    refine ⟨fun c => if c = w.colHeap.length then posD d.docNode ++ [name] else posC c, posD,
      ?_, ?_, ?_⟩
    · intro n x hn
      rw [h2] at hn
      obtain ⟨hlt, hpos⟩ := t.root n x hn
      rw [h3]
      simp only [List.length_append, List.length_singleton]
      refine ⟨by omega, ?_⟩
      rw [if_neg (by omega)]; exact hpos
    · intro p i x hp
      rw [col_of_append h3] at hp
      by_cases hpl : p = w.colHeap.length
      · rw [if_pos hpl] at hp; cases hp
      · rw [if_neg hpl] at hp
        rw [h4, List.length_set, if_neg hpl]
        exact t.col p i x hp
    · intro p n x hp
      rw [doc_of_set h4] at hp
      rw [h3]
      simp only [List.length_append, List.length_singleton]
      by_cases hpd : p = d.docNode ∧ d.docNode < w.docHeap.length
      · rw [if_pos hpd] at hp
        obtain ⟨rfl, -⟩ := hpd
        by_cases hn : n = name
        · subst hn
          simp [mapAssign] at hp
          subst hp
          simp
        · simp [mapAssign, hn] at hp
          obtain ⟨hlt, hpos⟩ := t.doc _ n x hp
          refine ⟨by omega, ?_⟩
          rw [if_neg (by omega)]; exact hpos
      · rw [if_neg hpd] at hp
        obtain ⟨hlt, hpos⟩ := t.doc p n x hp
        refine ⟨by omega, ?_⟩
        rw [if_neg (by omega)]; exact hpos

/-! ## Navigation -/

theorem resolveFrom_cons {w : World} {d : Nat} {x : String × String}
    {rest : List (String × String)} {n : Nat} (h : resolveFrom w d (x :: rest) = some n) :
    ∃ c d2, (w.doc d).colNodes x.1 = some c ∧ (w.col c).docNodes x.2 = some d2 ∧
      resolveFrom w d2 rest = some n := by
  cases h1 : (w.doc d).colNodes x.1 with
  | none => simp [resolveFrom, h1] at h
  | some c =>
    cases h2 : (w.col c).docNodes x.2 with
    | none => simp [resolveFrom, h1, h2] at h
    | some d2 =>
      simp only [resolveFrom, h1, h2] at h
      exact ⟨c, d2, rfl, h2, h⟩

theorem resolveFrom_of_links {w : World} {d c d2 : Nat} {x : String × String}
    {rest : List (String × String)} (h1 : (w.doc d).colNodes x.1 = some c)
    (h2 : (w.col c).docNodes x.2 = some d2) :
    resolveFrom w d (x :: rest) = resolveFrom w d2 rest := by
  simp only [resolveFrom, h1, h2]

theorem resolveDoc_some {w : World} {p : DocPath} {n : Nat} (h : resolveDoc w p = some n) :
    ∃ c d, w.store.rootNode.colNodes p.col = some c ∧ (w.col c).docNodes p.id = some d ∧
      resolveFrom w d p.more = some n := by
  cases h1 : w.store.rootNode.colNodes p.col with
  | none => simp [resolveDoc, h1] at h
  | some c =>
    cases h2 : (w.col c).docNodes p.id with
    | none => simp [resolveDoc, h1, h2] at h
    | some d =>
      simp only [resolveDoc, h1, h2] at h
      exact ⟨c, d, rfl, h2, h⟩

theorem resolveDoc_of_links {w : World} {p : DocPath} {c d : Nat}
    (h1 : w.store.rootNode.colNodes p.col = some c) (h2 : (w.col c).docNodes p.id = some d) :
    resolveDoc w p = resolveFrom w d p.more := by
  simp only [resolveDoc, h1, h2]

theorem resolveFrom_grows {w w2 : World} (g : Grows w w2) (more : List (String × String)) :
    ∀ (d n : Nat), resolveFrom w d more = some n → resolveFrom w2 d more = some n := by
  induction more with
  | nil => intro d n h; exact h
  | cons x rest ih =>
    intro d n h
    obtain ⟨c, d2, h1, h2, h3⟩ := resolveFrom_cons h
    rw [resolveFrom_of_links (g.doc _ _ _ h1) (g.col _ _ _ h2)]
    exact ih d2 n h3

theorem resolveDoc_grows {w w2 : World} (g : Grows w w2) {p : DocPath} {n : Nat}
    (h : resolveDoc w p = some n) : resolveDoc w2 p = some n := by
  obtain ⟨c, d, h1, h2, h3⟩ := resolveDoc_some h
  rw [resolveDoc_of_links (g.root _ _ h1) (g.col _ _ _ h2)]
  exact resolveFrom_grows g _ _ _ h3

theorem navFrom_grows (more : List (String × String)) :
    ∀ (w : World) (d : DocumentRefMock), Grows w (navFrom w d more).1 := by
  induction more with
  | nil => intro w d; exact Grows.refl w
  | cons x rest ih =>
    intro w d
    simp only [navFrom]
    exact ((subCollection_grows w d x.1).trans (Doc_grows _ _ x.2)).trans (ih _ _)

theorem navFrom_tree (more : List (String × String)) :
    ∀ (w : World) (d : DocumentRefMock), Tree w → Tree (navFrom w d more).1 := by
  induction more with
  | nil => intro w d t; exact t
  | cons x rest ih =>
    intro w d t
    simp only [navFrom]
    exact ih _ _ (Doc_tree _ _ x.2 (subCollection_tree w d x.1 t))

theorem tree_col_lt {w : World} (t : Tree w) {p : Nat} {id : String} {d : Nat}
    (h : (w.col p).docNodes id = some d) : d < w.docHeap.length := by
  obtain ⟨posC, posD, t⟩ := t
  exact (t.col p id d h).1

theorem tree_doc_lt {w : World} (t : Tree w) {p : Nat} {name : String} {c : Nat}
    (h : (w.doc p).colNodes name = some c) : c < w.colHeap.length := by
  obtain ⟨posC, posD, t⟩ := t
  exact (t.doc p name c h).1

theorem tree_root_lt {w : World} (t : Tree w) {name : String} {c : Nat}
    (h : w.store.rootNode.colNodes name = some c) : c < w.colHeap.length := by
  obtain ⟨posC, posD, t⟩ := t
  exact (t.root name c h).1

theorem navFrom_resolves (more : List (String × String)) :
    ∀ (w : World) (d : DocumentRefMock), Tree w → d.docNode < w.docHeap.length →
      resolveFrom (navFrom w d more).1 d.docNode more = some (navFrom w d more).2.docNode := by
  induction more with
  | nil => intro w d _ _; rfl
  | cons x rest ih =>
    intro w d t hd
    have t1 := subCollection_tree w d x.1 t
    have l1 := subCollection_link w d x.1 hd
    have hc := tree_doc_lt t1 l1
    have t2 := Doc_tree _ (d.Collection w x.1).2 x.2 t1
    have l2 := Doc_link (d.Collection w x.1).1 (d.Collection w x.1).2 x.2 hc
    have hd2 := tree_col_lt t2 l2
    have g2 := Doc_grows (d.Collection w x.1).1 (d.Collection w x.1).2 x.2
    have g3 := navFrom_grows rest ((d.Collection w x.1).2.Doc (d.Collection w x.1).1 x.2).1
      ((d.Collection w x.1).2.Doc (d.Collection w x.1).1 x.2).2
    have r := ih _ _ t2 hd2
    simp only [navFrom]
    rw [resolveFrom_of_links (g3.doc _ _ _ (g2.doc _ _ _ l1)) (g3.col _ _ _ l2)]
    exact r

theorem navFrom_of_resolve (more : List (String × String)) :
    ∀ (w : World) (d : DocumentRefMock) (n : Nat), resolveFrom w d.docNode more = some n →
      (navFrom w d more).2.docNode = n := by
  induction more with
  | nil => intro w d n h; simp only [resolveFrom] at h; cases h; rfl
  | cons x rest ih =>
    intro w d n h
    obtain ⟨c, d2, h1, h2, h3⟩ := resolveFrom_cons h
    obtain ⟨e1, -, e3, -, -⟩ := subCollection_of_link h1
    have h2b : (((d.Collection w x.1).1).col (d.Collection w x.1).2.colNode).docNodes x.2
        = some d2 := by
      rw [e1, col_eq_of_heap e3]; exact h2
    obtain ⟨f1, -⟩ := Doc_of_link h2b
    have g := (subCollection_grows w d x.1).trans
      (Doc_grows (d.Collection w x.1).1 (d.Collection w x.1).2 x.2)
    have h3b := resolveFrom_grows g _ _ _ h3
    simp only [navFrom]
    apply ih
    rw [f1]; exact h3b

theorem navDoc_grows (w : World) (p : DocPath) : Grows w (navDoc w p).1 := by
  simp only [navDoc]
  exact ((Collection_grows w p.col).trans (Doc_grows _ _ p.id)).trans (navFrom_grows _ _ _)

theorem navDoc_tree (w : World) (p : DocPath) (t : Tree w) : Tree (navDoc w p).1 := by
  simp only [navDoc]
  exact navFrom_tree _ _ _ (Doc_tree _ _ p.id (Collection_tree w p.col t))

theorem navDoc_resolves (w : World) (p : DocPath) (t : Tree w) :
    resolveDoc (navDoc w p).1 p = some (navDoc w p).2.docNode := by
  have t1 := Collection_tree w p.col t
  have l1 := Collection_link w p.col
  have hc := tree_root_lt t1 l1
  have t2 := Doc_tree _ (StoreMock.Collection w p.col).2 p.id t1
  have l2 := Doc_link (StoreMock.Collection w p.col).1 (StoreMock.Collection w p.col).2 p.id hc
  have hd2 := tree_col_lt t2 l2
  have g2 := Doc_grows (StoreMock.Collection w p.col).1 (StoreMock.Collection w p.col).2 p.id
  have g3 := navFrom_grows p.more
    ((StoreMock.Collection w p.col).2.Doc (StoreMock.Collection w p.col).1 p.id).1
    ((StoreMock.Collection w p.col).2.Doc (StoreMock.Collection w p.col).1 p.id).2
  have r := navFrom_resolves p.more _ _ t2 hd2
  simp only [navDoc]
  rw [resolveDoc_of_links (g3.root _ _ (g2.root _ _ l1)) (g3.col _ _ _ l2)]
  exact r

theorem navDoc_of_resolve {w : World} {p : DocPath} {n : Nat} (h : resolveDoc w p = some n) :
    (navDoc w p).2.docNode = n := by
  obtain ⟨c, d, h1, h2, h3⟩ := resolveDoc_some h
  obtain ⟨e1, -, e3, -, -⟩ := Collection_of_link h1
  have h2b : (((StoreMock.Collection w p.col).1).col
      (StoreMock.Collection w p.col).2.colNode).docNodes p.id = some d := by
    rw [e1, col_eq_of_heap e3]; exact h2
  obtain ⟨f1, -⟩ := Doc_of_link h2b
  have g := (Collection_grows w p.col).trans
    (Doc_grows (StoreMock.Collection w p.col).1 (StoreMock.Collection w p.col).2 p.id)
  have h3b := resolveFrom_grows g _ _ _ h3
  simp only [navDoc]
  apply navFrom_of_resolve
  rw [f1]; exact h3b

/-! ## Distinct paths lead to distinct nodes -/

theorem resolveFrom_pos {w : World} {posC posD : Nat → List String} (t : TreeAt w posC posD)
    (more : List (String × String)) :
    ∀ (d n : Nat), resolveFrom w d more = some n →
      posD n = posD d ++ more.flatMap fun x => [x.1, x.2] := by
  induction more with
  | nil => intro d n h; simp only [resolveFrom] at h; cases h; simp
  | cons x rest ih =>
    intro d n h
    obtain ⟨c, d2, h1, h2, h3⟩ := resolveFrom_cons h
    rw [ih d2 n h3, (t.col c x.2 d2 h2).2, (t.doc d x.1 c h1).2]
    simp

theorem resolveDoc_pos {w : World} {posC posD : Nat → List String} (t : TreeAt w posC posD)
    {p : DocPath} {n : Nat} (h : resolveDoc w p = some n) : posD n = p.segments := by
  obtain ⟨c, d, h1, h2, h3⟩ := resolveDoc_some h
  rw [resolveFrom_pos t _ _ _ h3, (t.col c p.id d h2).2, (t.root p.col c h1).2]
  simp [DocPath.segments]

theorem flatten_pairs_injective :
    ∀ (a b : List (String × String)),
      (a.flatMap fun x => [x.1, x.2]) = (b.flatMap fun x => [x.1, x.2]) → a = b := by
  intro a
  induction a with
  | nil =>
    intro b h
    cases b with
    | nil => rfl
    | cons y ys => simp at h
  | cons x xs ih =>
    intro b h
    cases b with
    | nil => simp at h
    | cons y ys =>
      simp only [List.flatMap_cons, List.cons_append, List.nil_append, List.cons.injEq] at h
      obtain ⟨h1, h2, h3⟩ := h
      rw [ih ys h3]
      congr 1
      exact Prod.ext h1 h2

theorem segments_injective {p q : DocPath} (h : p.segments = q.segments) : p = q := by
  cases p with
  | mk c i m =>
    cases q with
    | mk c2 i2 m2 =>
      simp only [DocPath.segments, List.cons.injEq] at h
      obtain ⟨h1, h2, h3⟩ := h
      rw [h1, h2, flatten_pairs_injective m m2 h3]

theorem resolveDoc_injective {w : World} (t : Tree w) {p q : DocPath} {n : Nat}
    (hp : resolveDoc w p = some n) (hq : resolveDoc w q = some n) : p = q := by
  obtain ⟨posC, posD, t⟩ := t
  exact segments_injective ((resolveDoc_pos t hp).symm.trans (resolveDoc_pos t hq))

theorem resolveFrom_lt {w : World} (t : Tree w) (more : List (String × String)) :
    ∀ (d n : Nat), d < w.docHeap.length → resolveFrom w d more = some n →
      n < w.docHeap.length := by
  induction more with
  | nil => intro d n hd h; simp only [resolveFrom] at h; cases h; exact hd
  | cons x rest ih =>
    intro d n _ h
    obtain ⟨c, d2, _, h2, h3⟩ := resolveFrom_cons h
    exact ih d2 n (tree_col_lt t h2) h3

theorem resolveDoc_lt {w : World} (t : Tree w) {p : DocPath} {n : Nat}
    (h : resolveDoc w p = some n) : n < w.docHeap.length := by
  obtain ⟨c, d, _, h2, h3⟩ := resolveDoc_some h
  exact resolveFrom_lt t _ _ _ (tree_col_lt t h2) h3

/-- A sub-document of `d` is a node other than `d`. -/
theorem resolveFrom_ne {w : World} (t : Tree w) (x : String × String)
    (rest : List (String × String)) (d n : Nat)
    (h : resolveFrom w d (x :: rest) = some n) : n ≠ d := by
  obtain ⟨posC, posD, t⟩ := t
  intro e
  have := resolveFrom_pos t _ _ _ h
  rw [e] at this
  have hl := congrArg List.length this
  simp at hl

/-! ## Writes to `data` keep the tree -/

theorem setData_doc (w : World) (p : Nat) (x : GoVal) (q : Nat) :
    (w.setData p x).doc q =
      if q = p ∧ p < w.docHeap.length then { w.doc p with data := x } else w.doc q :=
  @doc_of_set w (w.setData p x) p _ rfl q

theorem setData_colNodes (w : World) (p : Nat) (x : GoVal) (q : Nat) :
    ((w.setData p x).doc q).colNodes = (w.doc q).colNodes := by
  rw [setData_doc]
  split
  · next h => obtain ⟨rfl, -⟩ := h; rfl
  · rfl

theorem setData_data_self (w : World) (p : Nat) (x : GoVal) (hp : p < w.docHeap.length) :
    ((w.setData p x).doc p).data = x := by
  rw [setData_doc, if_pos ⟨rfl, hp⟩]

theorem setData_data_ne (w : World) (p : Nat) (x : GoVal) (q : Nat) (h : q ≠ p) :
    ((w.setData p x).doc q).data = (w.doc q).data := by
  rw [setData_doc, if_neg (fun e => h e.1)]

theorem setData_col (w : World) (p : Nat) (x : GoVal) (q : Nat) :
    (w.setData p x).col q = w.col q :=
  @col_eq_of_heap w (w.setData p x) rfl q

/-- The links of `w2` are those of `w`. -/
theorem resolveFrom_congr {w w2 : World}
    (hdoc : ∀ p, (w2.doc p).colNodes = (w.doc p).colNodes)
    (hcol : ∀ p, (w2.col p).docNodes = (w.col p).docNodes) (more : List (String × String)) :
    ∀ d, resolveFrom w2 d more = resolveFrom w d more := by
  induction more with
  | nil => intro d; rfl
  | cons x rest ih =>
    intro d
    simp only [resolveFrom, hdoc, hcol, ih]

theorem resolveDoc_congr {w w2 : World}
    (hroot : w2.store.rootNode.colNodes = w.store.rootNode.colNodes)
    (hdoc : ∀ p, (w2.doc p).colNodes = (w.doc p).colNodes)
    (hcol : ∀ p, (w2.col p).docNodes = (w.col p).docNodes) (p : DocPath) :
    resolveDoc w2 p = resolveDoc w p := by
  simp only [resolveDoc, hroot, hcol, resolveFrom_congr hdoc hcol]

theorem Tree.congr {w w2 : World} (t : Tree w)
    (hroot : w2.store.rootNode.colNodes = w.store.rootNode.colNodes)
    (hdoc : ∀ p, (w2.doc p).colNodes = (w.doc p).colNodes)
    (hcol : ∀ p, (w2.col p).docNodes = (w.col p).docNodes)
    (hcl : w2.colHeap.length = w.colHeap.length)
    (hdl : w2.docHeap.length = w.docHeap.length) : Tree w2 := by
  obtain ⟨posC, posD, t⟩ := t
  refine ⟨posC, posD, ?_, ?_, ?_⟩
  · intro n c h; rw [hroot] at h; rw [hcl]; exact t.root n c h
  · intro p i d h; rw [hcol] at h; rw [hdl]; exact t.col p i d h
  · intro p n c h; rw [hdoc] at h; rw [hcl]; exact t.doc p n c h

theorem setData_tree (w : World) (p : Nat) (x : GoVal) (t : Tree w) : Tree (w.setData p x) :=
  @Tree.congr w (w.setData p x) t rfl (setData_colNodes w p x)
    (fun q => by rw [setData_col]) rfl (by simp [World.setData])

theorem setData_resolveDoc (w : World) (p : Nat) (x : GoVal) (q : DocPath) :
    resolveDoc (w.setData p x) q = resolveDoc w q :=
  @resolveDoc_congr w (w.setData p x) rfl (setData_colNodes w p x)
    (fun r => by rw [setData_col]) q

/-! ## The operations when no fault flag is set -/

theorem Set_eq {w : World} (nf : NoFaults w) (d : DocumentRefMock) (x : GoVal) :
    d.Set w x = (w.setData d.docNode x, none) := by
  simp [DocumentRefMock.Set, nf.set]

theorem Merge_eq {w : World} (nf : NoFaults w) (d : DocumentRefMock) (x : GoVal) :
    d.Merge w x = (w.setData d.docNode x, none) := by
  simp [DocumentRefMock.Merge, nf.set]

theorem Delete_eq {w : World} (nf : NoFaults w) (d : DocumentRefMock) :
    d.Delete w = (w.setData d.docNode .nil, none) := by
  simp [DocumentRefMock.Delete, nf.del]

theorem Get_eq {w : World} (nf : NoFaults w) (d : DocumentRefMock) (J : Json) (dst : GoVal) :
    d.Get J w dst = if (w.doc d.docNode).data.isNil then ⟨false, none, w.heap⟩
      else ⟨true, none, J.unmarshal w.heap (J.marshal w.heap (w.doc d.docNode).data) dst⟩ := by
  simp [DocumentRefMock.Get, nf.get]

theorem Update_world (w : World) (d : DocumentRefMock) (patch : List Update) :
    ∃ h, (d.Update w patch).1 = { w with heap := h } := by
  unfold DocumentRefMock.Update
  split
  · exact ⟨w.heap, rfl⟩
  · split
    · exact ⟨w.heap, rfl⟩
    · exact ⟨_, rfl⟩

theorem NoFaults.of_store {w w2 : World} (nf : NoFaults w)
    (h1 : w2.store.failsOnGet = w.store.failsOnGet)
    (h2 : w2.store.failsOnSet = w.store.failsOnSet)
    (h3 : w2.store.failsOnDel = w.store.failsOnDel)
    (h4 : w2.store.failsOnUpd = w.store.failsOnUpd) : NoFaults w2 :=
  ⟨by rw [h1]; exact nf.get, by rw [h2]; exact nf.set, by rw [h3]; exact nf.del,
    by rw [h4]; exact nf.upd⟩

theorem flagOf_assign_false (m : String → Option Bool) (path : String)
    (h : ∀ k, flagOf m k = false) (k : String) : flagOf (mapAssign m path false) k = false := by
  by_cases hk : k = path
  · simp [flagOf, mapAssign, hk]
  · have := h k
    simp only [flagOf, mapAssign, hk, if_false] at this ⊢
    exact this

theorem Sound.grows {w w2 : World} (s : Sound w) (g : Grows w w2) (t : Tree w2) : Sound w2 :=
  ⟨t, s.noFaults.of_store g.fGet g.fSet g.fDel g.fUpd⟩

theorem Sound.setData {w : World} (s : Sound w) (p : Nat) (x : GoVal) :
    Sound (w.setData p x) :=
  ⟨setData_tree w p x s.tree, s.noFaults.of_store rfl rfl rfl rfl⟩

theorem Sound.heap {w : World} (s : Sound w) (h : Heap) : Sound { w with heap := h } :=
  ⟨@Tree.congr w { w with heap := h } s.tree rfl (fun _ => rfl) (fun _ => rfl) rfl rfl,
    s.noFaults.of_store rfl rfl rfl rfl⟩

theorem Sound.navDoc {w : World} (s : Sound w) (p : DocPath) : Sound (navDoc w p).1 :=
  s.grows (navDoc_grows w p) (navDoc_tree w p s.tree)

theorem Sound.Set {w : World} (s : Sound w) (d : DocumentRefMock) (x : GoVal) :
    Sound (d.Set w x).1 := by
  rw [Set_eq s.noFaults]; exact s.setData _ _

theorem Sound.Merge {w : World} (s : Sound w) (d : DocumentRefMock) (x : GoVal) :
    Sound (d.Merge w x).1 := by
  rw [Merge_eq s.noFaults]; exact s.setData _ _

theorem Sound.Delete {w : World} (s : Sound w) (d : DocumentRefMock) :
    Sound (d.Delete w).1 := by
  rw [Delete_eq s.noFaults]; exact s.setData _ _

theorem Sound.Update {w : World} (s : Sound w) (d : DocumentRefMock) (patch : List Update) :
    Sound (d.Update w patch).1 := by
  obtain ⟨h, e⟩ := Update_world w d patch
  rw [e]; exact s.heap h

theorem Sound.replayElement {w : World} (s : Sound w) (el : BatchElement) :
    Sound (replayElement w el).1 := by
  unfold GoStore.replayElement
  split
  · exact s.Set _ _
  · split
    · exact s.Update _ _
    · split
      · exact s.Merge _ _
      · exact s

theorem Sound.commitLoop (els : List BatchElement) :
    ∀ {w : World}, Sound w → Sound (commitLoop w els).1 := by
  induction els with
  | nil => intro w s; exact s
  | cons el els ih =>
    intro w s
    simp only [GoStore.commitLoop]
    split
    · exact ih (s.replayElement el)
    · exact s.replayElement el

theorem queueCall_world (wb : World × BatchMock) (c : BatchCall) :
    ∃ p, (queueCall wb c).1 = (navDoc wb.1 p).1 := by
  cases c with
  | set p src => exact ⟨p, rfl⟩
  | merge p src => exact ⟨p, rfl⟩
  | update p patch => exact ⟨p, rfl⟩

theorem Sound.queue (calls : List BatchCall) :
    ∀ {wb : World × BatchMock}, Sound wb.1 → Sound (calls.foldl queueCall wb).1 := by
  induction calls with
  | nil => intro wb s; exact s
  | cons c cs ih =>
    intro wb s
    simp only [List.foldl_cons]
    apply ih
    obtain ⟨p, e⟩ := queueCall_world wb c
    rw [e]; exact s.navDoc p

theorem Sound.mockStore (h : Heap) : Sound (MockStore h) := by
  refine ⟨⟨fun _ => [], fun _ => [], ?_, ?_, ?_⟩, ?_, ?_, ?_, ?_⟩
  · intro n c hn; simp [MockStore] at hn
  · intro p i d hp; simp [MockStore, World.col] at hp
  · intro p n c hp; simp [MockStore, World.doc] at hp
  all_goals intro k; simp [MockStore, flagOf]

theorem Sound.step {w : World} (s : Sound w) (op : Op) : Sound (step w op) := by
  cases op with
  | navDoc p => exact s.navDoc p
  | navCol parent name =>
    cases parent with
    | none => exact s.grows (Collection_grows w name) (Collection_tree w name s.tree)
    | some p =>
      exact (s.navDoc p).grows (subCollection_grows _ _ name)
        (subCollection_tree _ _ name (s.navDoc p).tree)
  | get p J dst => exact (s.navDoc p).heap _
  | set p dst => exact (s.navDoc p).Set _ _
  | merge p dst => exact (s.navDoc p).Merge _ _
  | update p patch => exact (s.navDoc p).Update _ _
  | delete p => exact (s.navDoc p).Delete _
  | failsOnGet path fails =>
    exact ⟨@Tree.congr w (FailsOnGet w path fails) s.tree rfl (fun _ => rfl) (fun _ => rfl)
      rfl rfl, flagOf_assign_false _ _ s.noFaults.get, s.noFaults.set, s.noFaults.del,
      s.noFaults.upd⟩
  | failsOnSet path fails =>
    exact ⟨@Tree.congr w (FailsOnSet w path fails) s.tree rfl (fun _ => rfl) (fun _ => rfl)
      rfl rfl, s.noFaults.get, flagOf_assign_false _ _ s.noFaults.set, s.noFaults.del,
      s.noFaults.upd⟩
  | failsOnDel path fails =>
    exact ⟨@Tree.congr w (FailsOnDel w path fails) s.tree rfl (fun _ => rfl) (fun _ => rfl)
      rfl rfl, s.noFaults.get, s.noFaults.set, flagOf_assign_false _ _ s.noFaults.del,
      s.noFaults.upd⟩
  | failsOnUpdate path fails =>
    exact ⟨@Tree.congr w (FailsOnUpdate w path fails) s.tree rfl (fun _ => rfl)
      (fun _ => rfl) rfl rfl, s.noFaults.get, s.noFaults.set, s.noFaults.del,
      flagOf_assign_false _ _ s.noFaults.upd⟩
  | batch calls => exact Sound.commitLoop _ (Sound.queue calls s)
  | client h => exact s.heap h

theorem Sound.run (ops : List Op) : ∀ {w : World}, Sound w → Sound (run w ops) := by
  induction ops with
  | nil => intro w s; exact s
  | cons op ops ih =>
    intro w s
    simp only [GoStore.run, List.foldl_cons]
    exact ih (s.step op)

/-! ## Claims -/

theorem get_after_write {w : World} (s : Sound w) (d : DocumentRefMock) (v : GoVal)
    (J : Json) (dst : GoVal) (hv : v.isNil = false) (hd : d.docNode < w.docHeap.length) :
    d.Get J (w.setData d.docNode v) dst
      = ⟨true, none, J.unmarshal w.heap (J.marshal w.heap v) dst⟩ := by
  rw [Get_eq (s.setData _ _).noFaults, setData_data_self w _ v hd, hv]
  rfl

theorem navDoc_lt {w : World} (s : Sound w) (p : DocPath) :
    (navDoc w p).2.docNode < (navDoc w p).1.docHeap.length :=
  resolveDoc_lt (navDoc_tree w p s.tree) (navDoc_resolves w p s.tree)

/-- Navigating again to the path of a write that was made through `d` reaches the node that
`d` holds, with the data as written. -/
theorem renavigate {w : World} (s : Sound w) (p : DocPath) (x : GoVal) :
    (navDoc ((navDoc w p).1.setData (navDoc w p).2.docNode x) p).2.docNode
        = (navDoc w p).2.docNode ∧
      Grows ((navDoc w p).1.setData (navDoc w p).2.docNode x)
        (navDoc ((navDoc w p).1.setData (navDoc w p).2.docNode x) p).1 := by
  refine ⟨navDoc_of_resolve ?_, navDoc_grows _ _⟩
  rw [setData_resolveDoc]
  exact navDoc_resolves w p s.tree

theorem Get_grows {w w2 : World} (g : Grows w w2) (d e : DocumentRefMock) (nf : NoFaults w)
    (J : Json) (dst : GoVal) (h : e.docNode = d.docNode) : e.Get J w2 dst = d.Get J w dst := by
  rw [Get_eq nf, Get_eq (nf.of_store g.fGet g.fSet g.fDel g.fUpd), h, g.data, g.heap]

/-- C1 (amended): in every world a program can reach from `MockStore()`, for every document path
`p`, every value `v` other than the nil interface and every `dst`, `Set(v)` on the reference
navigated to `p` returns no error and leaves the value memory as it is, and `Get(dst)` then
reports found with no error and leaves the memory that `json.Unmarshal(bytes, dst)` leaves for
`bytes = json.Marshal(v)`, both errors dropped, through the same reference and through a
reference navigated again from the store to `p`.  The bytes are those of `v` alone: whatever the
document held before plays no part.  Whether `dst` then equals `v` is up to `encoding/json`. -/
theorem C1_set_then_get (h0 : Heap) (ops : List Op) (p : DocPath) (v : GoVal) (J : Json)
    (dst : GoVal) (hv : v.isNil = false) :
    ((navDoc (run (MockStore h0) ops) p).2.Set (navDoc (run (MockStore h0) ops) p).1 v).2 = none ∧
    ((navDoc (run (MockStore h0) ops) p).2.Set (navDoc (run (MockStore h0) ops) p).1 v).1.heap
      = (run (MockStore h0) ops).heap ∧
    (navDoc (run (MockStore h0) ops) p).2.Get J
      ((navDoc (run (MockStore h0) ops) p).2.Set (navDoc (run (MockStore h0) ops) p).1 v).1 dst
        = ⟨true, none,
            J.unmarshal (run (MockStore h0) ops).heap
              (J.marshal (run (MockStore h0) ops).heap v) dst⟩ ∧
    (navDoc ((navDoc (run (MockStore h0) ops) p).2.Set
        (navDoc (run (MockStore h0) ops) p).1 v).1 p).2.Get J
      (navDoc ((navDoc (run (MockStore h0) ops) p).2.Set
        (navDoc (run (MockStore h0) ops) p).1 v).1 p).1 dst
        = ⟨true, none,
            J.unmarshal (run (MockStore h0) ops).heap
              (J.marshal (run (MockStore h0) ops).heap v) dst⟩ := by
  have s : Sound (run (MockStore h0) ops) := Sound.run ops (Sound.mockStore h0)
  have s1 := s.navDoc p
  have hlt := navDoc_lt s p
  have hh : (navDoc (run (MockStore h0) ops) p).1.heap = (run (MockStore h0) ops).heap :=
    (navDoc_grows _ p).heap
  have key := get_after_write s1 (navDoc (run (MockStore h0) ops) p).2 v J dst hv hlt
  rw [hh] at key
  rw [Set_eq s1.noFaults]
  refine ⟨rfl, hh, key, ?_⟩
  obtain ⟨hn, g⟩ := renavigate s p v
  rw [Get_grows g (navDoc (run (MockStore h0) ops) p).2 _ (s1.setData _ _).noFaults J dst hn]
  exact key

/-- Witness of `C1_set_then_get`: on a document that already holds `1`, `Set("x")` succeeds and
`Get` decodes the bytes of `"x"` into `dst`, for every codec and every `dst`. -/
theorem C1_set_then_get_witness :
    (GoVal.str "x").isNil = false ∧
    ∀ (J : Json) (dst : GoVal),
      (navDoc (run (MockStore Heap.empty) [Op.set ⟨"c", "d", []⟩ (.int 1)]) ⟨"c", "d", []⟩).2.Get J
        ((navDoc (run (MockStore Heap.empty) [Op.set ⟨"c", "d", []⟩ (.int 1)])
            ⟨"c", "d", []⟩).2.Set
          (navDoc (run (MockStore Heap.empty) [Op.set ⟨"c", "d", []⟩ (.int 1)]) ⟨"c", "d", []⟩).1
          (.str "x")).1 dst
        = ⟨true, none,
            J.unmarshal (run (MockStore Heap.empty) [Op.set ⟨"c", "d", []⟩ (.int 1)]).heap
              (J.marshal (run (MockStore Heap.empty) [Op.set ⟨"c", "d", []⟩ (.int 1)]).heap
                (.str "x")) dst⟩ :=
  ⟨rfl, fun J dst =>
    (C1_set_then_get Heap.empty [Op.set ⟨"c", "d", []⟩ (.int 1)] ⟨"c", "d", []⟩ (.str "x") J dst
      rfl).2.2.1⟩

/-- C1 as stated fails for the nil value: on a fresh store `Set(nil)` returns no error, and
`Get` then reports not-found and leaves `dst` and the rest of the memory untouched, whatever
the codec and `dst`. -/
theorem C1_counterexample_set_nil :
    ((navDoc (MockStore Heap.empty) ⟨"c", "d", []⟩).2.Set
      (navDoc (MockStore Heap.empty) ⟨"c", "d", []⟩).1 .nil).2 = none ∧
    ∀ (J : Json) (dst : GoVal),
      (navDoc (MockStore Heap.empty) ⟨"c", "d", []⟩).2.Get J
        ((navDoc (MockStore Heap.empty) ⟨"c", "d", []⟩).2.Set
          (navDoc (MockStore Heap.empty) ⟨"c", "d", []⟩).1 .nil).1 dst
        = ⟨false, none, Heap.empty⟩ :=
  ⟨rfl, fun _ _ => rfl⟩

/-! ### Documents that were never written -/

theorem Untouched.keep_mockStore (p : DocPath) (h : Heap) : Untouched p (MockStore h) := by
  intro n hn
  simp [MockStore, World.doc, GoVal.isNil] at hn

theorem Untouched.keep_grows {p : DocPath} {w w2 : World} (u : Untouched p w) (g : Grows w w2) :
    Untouched p w2 := by
  intro n hn
  rw [g.data] at hn
  obtain ⟨q, hq, hr⟩ := u n hn
  exact ⟨q, hq, resolveDoc_grows g hr⟩

theorem Untouched.keep_setData {p : DocPath} {w : World} (u : Untouched p w) (m : Nat) (x : GoVal)
    (hx : x.isNil = false → ∃ q, q ≠ p ∧ resolveDoc w q = some m) :
    Untouched p (w.setData m x) := by
  intro n hn
  by_cases hnm : n = m ∧ m < w.docHeap.length
  · obtain ⟨rfl, hlt⟩ := hnm
    rw [setData_data_self w n x hlt] at hn
    obtain ⟨q, hq, hr⟩ := hx hn
    exact ⟨q, hq, by rw [setData_resolveDoc]; exact hr⟩
  · rw [setData_doc, if_neg hnm] at hn
    obtain ⟨q, hq, hr⟩ := u n hn
    exact ⟨q, hq, by rw [setData_resolveDoc]; exact hr⟩

theorem resolveDoc_same_nodes {w w2 : World}
    (hs : w2.store.rootNode.colNodes = w.store.rootNode.colNodes)
    (hc : w2.colHeap = w.colHeap) (hd : w2.docHeap = w.docHeap) (q : DocPath) :
    resolveDoc w2 q = resolveDoc w q :=
  resolveDoc_congr hs (fun n => by rw [doc_eq_of_heap hd]) (fun n => by rw [col_eq_of_heap hc]) q

theorem Untouched.same_nodes {p : DocPath} {w w2 : World} (u : Untouched p w)
    (hs : w2.store.rootNode.colNodes = w.store.rootNode.colNodes)
    (hc : w2.colHeap = w.colHeap) (hd : w2.docHeap = w.docHeap) : Untouched p w2 := by
  intro n hn
  rw [doc_eq_of_heap hd] at hn
  obtain ⟨q, hq, hr⟩ := u n hn
  exact ⟨q, hq, by rw [resolveDoc_same_nodes hs hc hd]; exact hr⟩

theorem Untouched.keep_heap {p : DocPath} {w : World} (u : Untouched p w) (h : Heap) :
    Untouched p { w with heap := h } := u.same_nodes rfl rfl rfl

theorem Untouched.keep_Update {p : DocPath} {w : World} (u : Untouched p w) (d : DocumentRefMock)
    (patch : List Update) : Untouched p (d.Update w patch).1 := by
  obtain ⟨h, e⟩ := Update_world w d patch
  rw [e]; exact u.keep_heap h

theorem Update_resolveDoc (w : World) (d : DocumentRefMock) (patch : List Update)
    (q : DocPath) : resolveDoc (d.Update w patch).1 q = resolveDoc w q := by
  obtain ⟨h, e⟩ := Update_world w d patch
  rw [e]; exact @resolveDoc_same_nodes w { w with heap := h } rfl rfl rfl q

theorem ElementsAvoid.transport {p : DocPath} {w w2 : World} {els : List BatchElement}
    (a : ElementsAvoid p w els) (h : ∀ q n, resolveDoc w q = some n → resolveDoc w2 q = some n) :
    ElementsAvoid p w2 els := by
  intro el hel hm
  obtain ⟨q, hq, hr⟩ := a el hel hm
  exact ⟨q, hq, h q _ hr⟩

theorem replayElement_resolveDoc {w : World} (s : Sound w) (el : BatchElement) (q : DocPath) :
    resolveDoc (replayElement w el).1 q = resolveDoc w q := by
  unfold replayElement
  split
  · rw [Set_eq s.noFaults]; exact setData_resolveDoc _ _ _ _
  · split
    · exact Update_resolveDoc _ _ _ _
    · split
      · rw [Merge_eq s.noFaults]; exact setData_resolveDoc _ _ _ _
      · rfl

theorem Untouched.keep_replayElement {p : DocPath} {w : World} (s : Sound w) (u : Untouched p w)
    (el : BatchElement)
    (a : el.method = "set" ∨ el.method = "merge" →
      ∃ q, q ≠ p ∧ resolveDoc w q = some el.docRef.docNode) :
    Untouched p (replayElement w el).1 := by
  unfold GoStore.replayElement
  split
  · next hm =>
    rw [Set_eq s.noFaults]
    exact u.keep_setData _ _ fun _ => a (Or.inl hm)
  · split
    · exact u.keep_Update _ _
    · split
      · next hm =>
        rw [Merge_eq s.noFaults]
        exact u.keep_setData _ _ fun _ => a (Or.inr hm)
      · exact u

theorem Untouched.keep_commitLoop {p : DocPath} (els : List BatchElement) :
    ∀ {w : World}, Sound w → Untouched p w → ElementsAvoid p w els →
      Untouched p (commitLoop w els).1 := by
  induction els with
  | nil => intro w _ u _; exact u
  | cons el els ih =>
    intro w s u a
    have atl : ElementsAvoid p w els := fun e he hm => a e (List.mem_cons_of_mem _ he) hm
    have u1 := u.keep_replayElement s el (a el (List.mem_cons_self _ _))
    simp only [GoStore.commitLoop]
    split
    · exact ih (s.replayElement el) u1
        (atl.transport fun q n hr => by rw [replayElement_resolveDoc s]; exact hr)
    · exact u1

theorem ElementsAvoid.append {p : DocPath} {w : World} {els : List BatchElement}
    (a : ElementsAvoid p w els) (el : BatchElement)
    (h : el.method = "set" ∨ el.method = "merge" →
      ∃ q, q ≠ p ∧ resolveDoc w q = some el.docRef.docNode) :
    ElementsAvoid p w (els ++ [el]) := by
  intro e he hm
  rcases List.mem_append.mp he with h1 | h1
  · exact a e h1 hm
  · rw [List.mem_singleton] at h1
    subst h1
    exact h hm

theorem queue_avoids {p : DocPath} (calls : List BatchCall) :
    ∀ {wb : World × BatchMock}, (∀ c ∈ calls, ¬ c.writes p) → Sound wb.1 → Untouched p wb.1 →
      ElementsAvoid p wb.1 wb.2.elements →
      Untouched p (calls.foldl queueCall wb).1 ∧
      ElementsAvoid p (calls.foldl queueCall wb).1 (calls.foldl queueCall wb).2.elements := by
  induction calls with
  | nil => intro wb _ _ u a; exact ⟨u, a⟩
  | cons c cs ih =>
    intro wb hc s u a
    simp only [List.foldl_cons]
    have hcs : ∀ c ∈ cs, ¬ c.writes p := fun x hx => hc x (List.mem_cons_of_mem _ hx)
    have hc0 := hc c (List.mem_cons_self _ _)
    cases c with
    | set q src =>
      have hq : q ≠ p := hc0
      refine ih hcs (s.navDoc q) (u.keep_grows (navDoc_grows _ q)) ?_
      exact (a.transport fun r n hr => resolveDoc_grows (navDoc_grows _ q) hr).append _
        fun _ => ⟨q, hq, navDoc_resolves _ q s.tree⟩
    | merge q src =>
      have hq : q ≠ p := hc0
      refine ih hcs (s.navDoc q) (u.keep_grows (navDoc_grows _ q)) ?_
      exact (a.transport fun r n hr => resolveDoc_grows (navDoc_grows _ q) hr).append _
        fun _ => ⟨q, hq, navDoc_resolves _ q s.tree⟩
    | update q patch =>
      refine ih hcs (s.navDoc q) (u.keep_grows (navDoc_grows _ q)) ?_
      refine (a.transport fun r n hr => resolveDoc_grows (navDoc_grows _ q) hr).append _ ?_
      intro hm
      simp [BatchMock.Update] at hm

theorem Untouched.keep_step {p : DocPath} {w : World} (s : Sound w) (u : Untouched p w) (op : Op)
    (h : ¬ op.writes p) : Untouched p (step w op) := by
  cases op with
  | navDoc q => exact u.keep_grows (navDoc_grows w q)
  | navCol parent name =>
    cases parent with
    | none => exact u.keep_grows (Collection_grows w name)
    | some q => exact u.keep_grows ((navDoc_grows w q).trans (subCollection_grows _ _ name))
  | get q J dst => exact (u.keep_grows (navDoc_grows w q)).keep_heap _
  | set q dst =>
    have hq : q ≠ p := h
    simp only [GoStore.step]
    rw [Set_eq (s.navDoc q).noFaults]
    exact (u.keep_grows (navDoc_grows w q)).keep_setData _ _
      fun _ => ⟨q, hq, navDoc_resolves w q s.tree⟩
  | merge q dst =>
    have hq : q ≠ p := h
    simp only [GoStore.step]
    rw [Merge_eq (s.navDoc q).noFaults]
    exact (u.keep_grows (navDoc_grows w q)).keep_setData _ _
      fun _ => ⟨q, hq, navDoc_resolves w q s.tree⟩
  | update q patch => exact (u.keep_grows (navDoc_grows w q)).keep_Update _ _
  | delete q =>
    simp only [GoStore.step]
    rw [Delete_eq (s.navDoc q).noFaults]
    exact (u.keep_grows (navDoc_grows w q)).keep_setData _ _ fun hx => by simp [GoVal.isNil] at hx
  | failsOnGet path fails => exact u.same_nodes rfl rfl rfl
  | failsOnSet path fails => exact u.same_nodes rfl rfl rfl
  | failsOnDel path fails => exact u.same_nodes rfl rfl rfl
  | failsOnUpdate path fails => exact u.same_nodes rfl rfl rfl
  | batch calls =>
    have hq : ∀ c ∈ calls, ¬ c.writes p := fun c hc hw => h ⟨c, hc, hw⟩
    obtain ⟨u2, a2⟩ := @queue_avoids p calls (w, StoreMock.Batch) hq s u
      (fun el hel => by simp [StoreMock.Batch] at hel)
    exact Untouched.keep_commitLoop _ (Sound.queue calls s) u2 a2
  | client hp => exact u.keep_heap hp

theorem Untouched.keep_run {p : DocPath} (ops : List Op) :
    ∀ {w : World}, Sound w → Untouched p w → (∀ op ∈ ops, ¬ op.writes p) →
      Untouched p (run w ops) := by
  induction ops with
  | nil => intro w _ u _; exact u
  | cons op ops ih =>
    intro w s u h
    simp only [GoStore.run, List.foldl_cons]
    exact ih (s.step op) (u.keep_step s op (h op (List.mem_cons_self _ _)))
      fun x hx => h x (List.mem_cons_of_mem _ hx)

/-- C2 (amended): for every store created by `MockStore()` and every program run on it,
whatever it navigates to or writes elsewhere, a document path `p` that was never the target of
a `Set` nor of a `Merge`, directly or through a committed batch, is reported not-found with no
error by `Get`, which leaves `dst` and the rest of the value memory untouched. -/
theorem C2_never_set_not_found (h0 : Heap) (ops : List Op) (p : DocPath) (J : Json)
    (dst : GoVal) (h : ∀ op ∈ ops, ¬ op.writes p) :
    (navDoc (run (MockStore h0) ops) p).2.Get J (navDoc (run (MockStore h0) ops) p).1 dst
      = ⟨false, none, (run (MockStore h0) ops).heap⟩ := by
  have s : Sound (run (MockStore h0) ops) := Sound.run ops (Sound.mockStore h0)
  have u : Untouched p (run (MockStore h0) ops) :=
    Untouched.keep_run ops (Sound.mockStore h0) (Untouched.keep_mockStore p h0) h
  have u1 := u.keep_grows (navDoc_grows _ p)
  have r := navDoc_resolves _ p s.tree
  rw [Get_eq (s.navDoc p).noFaults, (navDoc_grows _ p).heap]
  cases hd : ((navDoc (run (MockStore h0) ops) p).1.doc
      (navDoc (run (MockStore h0) ops) p).2.docNode).data.isNil with
  | true => simp
  | false =>
    obtain ⟨q, hq, hr⟩ := u1 _ hd
    exact absurd (resolveDoc_injective (s.navDoc p).tree hr r) hq

/-- Witness of `C2_never_set_not_found`: the node `c/d` is created by navigation, gets a
sub-collection with a written document and a written sibling, and is still not found. -/
theorem C2_never_set_not_found_witness :
    (∀ op ∈ [Op.navCol (some ⟨"c", "d", []⟩) "sub", Op.set ⟨"c", "d", [("sub", "e")]⟩ (.int 1),
        Op.set ⟨"c", "other", []⟩ (.int 2)], ¬ op.writes ⟨"c", "d", []⟩) ∧
    ∀ (J : Json) (dst : GoVal),
      (navDoc (run (MockStore Heap.empty)
          [Op.navCol (some ⟨"c", "d", []⟩) "sub", Op.set ⟨"c", "d", [("sub", "e")]⟩ (.int 1),
            Op.set ⟨"c", "other", []⟩ (.int 2)]) ⟨"c", "d", []⟩).2.Get J
        (navDoc (run (MockStore Heap.empty)
          [Op.navCol (some ⟨"c", "d", []⟩) "sub", Op.set ⟨"c", "d", [("sub", "e")]⟩ (.int 1),
            Op.set ⟨"c", "other", []⟩ (.int 2)]) ⟨"c", "d", []⟩).1 dst
        = ⟨false, none,
            (run (MockStore Heap.empty)
              [Op.navCol (some ⟨"c", "d", []⟩) "sub",
                Op.set ⟨"c", "d", [("sub", "e")]⟩ (.int 1),
                Op.set ⟨"c", "other", []⟩ (.int 2)]).heap⟩ :=
  have h : ∀ op ∈ [Op.navCol (some ⟨"c", "d", []⟩) "sub",
      Op.set ⟨"c", "d", [("sub", "e")]⟩ (.int 1), Op.set ⟨"c", "other", []⟩ (.int 2)],
      ¬ op.writes ⟨"c", "d", []⟩ := by
    intro op hop
    simp only [List.mem_cons, List.mem_singleton, List.not_mem_nil, or_false] at hop
    rcases hop with rfl | rfl | rfl <;> simp [Op.writes]
  ⟨h, fun J dst => C2_never_set_not_found Heap.empty _ ⟨"c", "d", []⟩ J dst h⟩

/-- C2 as stated fails for a document that was merged: on a new store no `Set` is ever called,
`Merge(1)` on the document `c/d` returns no error, and `Get` on `c/d` then reports found. -/
theorem C2_counterexample_merged_document :
    ((navDoc (MockStore Heap.empty) ⟨"c", "d", []⟩).2.Merge
      (navDoc (MockStore Heap.empty) ⟨"c", "d", []⟩).1 (.int 1)).2 = none ∧
    ∀ (J : Json) (dst : GoVal),
      ((navDoc (MockStore Heap.empty) ⟨"c", "d", []⟩).2.Get J
        ((navDoc (MockStore Heap.empty) ⟨"c", "d", []⟩).2.Merge
          (navDoc (MockStore Heap.empty) ⟨"c", "d", []⟩).1 (.int 1)).1 dst).found = true ∧
      ((navDoc (MockStore Heap.empty) ⟨"c", "d", []⟩).2.Get J
        ((navDoc (MockStore Heap.empty) ⟨"c", "d", []⟩).2.Merge
          (navDoc (MockStore Heap.empty) ⟨"c", "d", []⟩).1 (.int 1)).1 dst).err = none :=
  ⟨rfl, fun _ _ => ⟨rfl, rfl⟩⟩

/-! ### Update of an absent document -/

/-- C3: when no update fault is armed for the document's path, `Update` with any patch list on
a document whose data is absent returns the error "doesn't exist" and leaves the whole world as
it was: no patch is applied and the data stays absent, so `Get` answers as before, which is
not-found, with `dst` untouched, whenever no get fault is armed. -/
theorem C3_update_absent_fails (w : World) (d : DocumentRefMock) (patch : List Update)
    (hf : flagOf w.store.failsOnUpd (d.faultKey w) = false)
    (hd : (w.doc d.docNode).data.isNil = true) :
    d.Update w patch = (w, .ret (some "doesn't exist")) ∧
    ((d.Update w patch).1.doc d.docNode).data.isNil = true ∧
    (∀ (J : Json) (dst : GoVal), d.Get J (d.Update w patch).1 dst = d.Get J w dst) ∧
    (flagOf w.store.failsOnGet (d.faultKey w) = false →
      ∀ (J : Json) (dst : GoVal), d.Get J (d.Update w patch).1 dst = ⟨false, none, w.heap⟩) := by
  have e : d.Update w patch = (w, .ret (some "doesn't exist")) := by
    simp [DocumentRefMock.Update, hf, hd]
  rw [e]
  refine ⟨rfl, hd, fun _ _ => rfl, ?_⟩
  intro hg J dst
  simp [DocumentRefMock.Get, hg, hd]

/-- Witness of `C3_update_absent_fails`: a freshly navigated document of a new store. -/
theorem C3_update_absent_fails_witness :
    (navDoc (MockStore Heap.empty) ⟨"c", "d", []⟩).2.Update
        (navDoc (MockStore Heap.empty) ⟨"c", "d", []⟩).1 [⟨"a", .int 1⟩]
      = ((navDoc (MockStore Heap.empty) ⟨"c", "d", []⟩).1, .ret (some "doesn't exist")) :=
  (C3_update_absent_fails (navDoc (MockStore Heap.empty) ⟨"c", "d", []⟩).1
    (navDoc (MockStore Heap.empty) ⟨"c", "d", []⟩).2 [⟨"a", .int 1⟩] (by decide) (by decide)).1

/-! ### Update of one field of a map -/

theorem splitDot_no_dot (cs : List Char) (h : '.' ∉ cs) : splitDot cs = [cs] := by
  induction cs with
  | nil => rfl
  | cons c cs ih =>
    have hc : c ≠ '.' := fun e => h (by rw [e]; exact List.mem_cons_self _ _)
    have hcs : '.' ∉ cs := fun m => h (List.mem_cons_of_mem _ m)
    simp [splitDot, hc, ih hcs]

theorem stringsSplit_single (k : String) (h : '.' ∉ k.toList) : stringsSplit k = [k] := by
  have e : splitDot k.toList = [k.toList] := splitDot_no_dot _ h
  simp only [stringsSplit, e, List.map_cons, List.map_nil]
  rfl

theorem setValue_map_single (h : Heap) (a : Nat) (m : String → Option GoVal) (k : String)
    (x : GoVal) (hm : h.maps a = some m) (hx : x.isNil = false) (hs : x ≠ firestoreDelete) :
    setValue h (.map a) [k] x =
      .ret { h with maps := fun b =>
        if b = a then some (fun j => if j = k then some x else m j) else h.maps b } := by
  simp only [setValue, reflectTarget]
  unfold setMapEntry
  split
  · simp [GoVal.isNil] at hx
  · exact absurd rfl hs
  · simp [hm]

theorem Update_map_single {w : World} (d : DocumentRefMock) (a : Nat)
    (m : String → Option GoVal) (k : String) (x : GoVal)
    (hf : flagOf w.store.failsOnUpd (d.faultKey w) = false)
    (hd : (w.doc d.docNode).data = .map a) (hm : w.heap.maps a = some m)
    (hk : '.' ∉ k.toList) (hx : x.isNil = false) (hs : x ≠ firestoreDelete) :
    d.Update w [⟨k, x⟩] =
      ({ w with
          heap := { w.heap with
            maps := fun b =>
              if b = a then some (fun j => if j = k then some x else m j)
              else w.heap.maps b } },
        .ret none) := by
  simp [DocumentRefMock.Update, hf, hd, GoVal.isNil, applyPatches, SetPathValue,
    stringsSplit_single k hk, setValue_map_single w.heap a m k x hm hx hs]

/-- What the code does for a value other than nil and `firestore.Delete`: in every world a
program can reach, after `Set(d, m)` with `m` a map object and `Update(d, [(k, x)])` with a
dot-free `k`, `Update` returns nil, the document still holds the same map object (`Get` reports
found with no error), and that object sends `k` to `x` and agrees with the old contents on every
other key. -/
theorem update_single_field (h0 : Heap) (ops : List Op) (p : DocPath) (a : Nat)
    (m : String → Option GoVal) (k : String) (x : GoVal)
    (hm : (run (MockStore h0) ops).heap.maps a = some m)
    (hk : '.' ∉ k.toList) (hx : x.isNil = false) (hs : x ≠ firestoreDelete) :
    ((navDoc (run (MockStore h0) ops) p).2.Update
      ((navDoc (run (MockStore h0) ops) p).2.Set (navDoc (run (MockStore h0) ops) p).1
        (.map a)).1 [⟨k, x⟩]).2 = .ret none ∧
    (((navDoc (run (MockStore h0) ops) p).2.Update
      ((navDoc (run (MockStore h0) ops) p).2.Set (navDoc (run (MockStore h0) ops) p).1
        (.map a)).1 [⟨k, x⟩]).1.doc (navDoc (run (MockStore h0) ops) p).2.docNode).data
      = .map a ∧
    (∀ (J : Json) (dst : GoVal),
      ((navDoc (run (MockStore h0) ops) p).2.Get J
        ((navDoc (run (MockStore h0) ops) p).2.Update
          ((navDoc (run (MockStore h0) ops) p).2.Set (navDoc (run (MockStore h0) ops) p).1
            (.map a)).1 [⟨k, x⟩]).1 dst).found = true ∧
      ((navDoc (run (MockStore h0) ops) p).2.Get J
        ((navDoc (run (MockStore h0) ops) p).2.Update
          ((navDoc (run (MockStore h0) ops) p).2.Set (navDoc (run (MockStore h0) ops) p).1
            (.map a)).1 [⟨k, x⟩]).1 dst).err = none) ∧
    ((navDoc (run (MockStore h0) ops) p).2.Update
      ((navDoc (run (MockStore h0) ops) p).2.Set (navDoc (run (MockStore h0) ops) p).1
        (.map a)).1 [⟨k, x⟩]).1.heap.maps a
      = some (fun j => if j = k then some x else m j) := by
  have s : Sound (run (MockStore h0) ops) := Sound.run ops (Sound.mockStore h0)
  have s1 := s.navDoc p
  have hlt := navDoc_lt s p
  have s2 := s1.setData (navDoc (run (MockStore h0) ops) p).2.docNode (.map a)
  have hm2 : ((navDoc (run (MockStore h0) ops) p).1.setData
      (navDoc (run (MockStore h0) ops) p).2.docNode (.map a)).heap.maps a = some m := by
    have : ((navDoc (run (MockStore h0) ops) p).1.setData
      (navDoc (run (MockStore h0) ops) p).2.docNode (.map a)).heap
        = (run (MockStore h0) ops).heap := (navDoc_grows _ p).heap
    rw [this]; exact hm
  rw [Set_eq s1.noFaults]
  rw [Update_map_single _ a m k x (s2.noFaults.upd _) (setData_data_self _ _ _ hlt) hm2 hk hx hs]
  have hdata := setData_data_self (navDoc (run (MockStore h0) ops) p).1
    (navDoc (run (MockStore h0) ops) p).2.docNode (.map a) hlt
  refine ⟨rfl, hdata, ?_, by simp⟩
  intro J dst
  rw [Get_eq (s2.heap _).noFaults]
  have hd2 : ∀ (h : Heap), (({ (navDoc (run (MockStore h0) ops) p).1.setData
      (navDoc (run (MockStore h0) ops) p).2.docNode (.map a) with heap := h } : World).doc
        (navDoc (run (MockStore h0) ops) p).2.docNode).data = .map a := fun _ => hdata
  rw [hd2]
  exact ⟨rfl, rfl⟩

/-- The spec's instance: `{a: 1, b: 2}` updated with `("a", 9)` holds `a ↦ 9` and `b ↦ 2`. -/
theorem update_single_field_instance :
    ((navDoc (MockStore heapAB) ⟨"c", "d", []⟩).2.Update
      ((navDoc (MockStore heapAB) ⟨"c", "d", []⟩).2.Set (navDoc (MockStore heapAB) ⟨"c", "d", []⟩).1
        (.map 0)).1 [⟨"a", .int 9⟩]).1.heap.maps 0
      = some (fun j => if j = "a" then some (.int 9) else
          if j = "a" then some (.int 1) else if j = "b" then some (.int 2) else none) :=
  (update_single_field heapAB [] ⟨"c", "d", []⟩ 0 _ "a" (.int 9) (by simp [run, MockStore, heapAB])
    (by decide) rfl (by simp [firestoreDelete])).2.2.2

/-- C4, the failing input: after `Set(d, {a: 1, b: 2})`, the call `Update(d, [("a", nil)])`
panics inside `setValue` (`reflect.TypeOf(nil).String()`), although nil is a value other than
the delete sentinel. -/
theorem C4_update_with_nil_value_panics :
    ((navDoc (MockStore heapAB) ⟨"c", "d", []⟩).2.Update
      ((navDoc (MockStore heapAB) ⟨"c", "d", []⟩).2.Set (navDoc (MockStore heapAB) ⟨"c", "d", []⟩).1
        (.map 0)).1 [⟨"a", .nil⟩]).2
      = .panic "invalid memory address or nil pointer dereference" := by
  rfl

/-! ### Delete keeps the sub-collections -/

theorem navFrom_single (w : World) (d : DocumentRefMock) (name id : String) :
    navFrom w d [(name, id)] =
      ((d.Collection w name).2.Doc (d.Collection w name).1 id) := by
  simp [navFrom]

theorem Get_same_data {w w2 : World} (d e : DocumentRefMock) (nf : NoFaults w)
    (nf2 : NoFaults w2) (J : Json) (dst : GoVal)
    (h : (w2.doc e.docNode).data = (w.doc d.docNode).data) (hh : w2.heap = w.heap) :
    e.Get J w2 dst = d.Get J w dst := by
  rw [Get_eq nf, Get_eq nf2, h, hh]

/-- C5: in every world a program can reach, for every document `d` (navigated to at path `p`)
and every document `e = d.Collection(name).Doc(id)` under it: `Delete` on `d` returns no error,
`Get` on `d` then reports not-found with no error and leaves `dst` untouched, and navigating
`d.Collection(name).Doc(id)` again reaches the same node as before, whose `Get` returns what it
returned before the `Delete`: the same two results and the same memory, `dst` included. -/
theorem C5_delete_keeps_subcollections (h0 : Heap) (ops : List Op) (p : DocPath)
    (name id : String) (J : Json) (dst : GoVal) :
    ((navDoc (run (MockStore h0) ops) p).2.Delete
      (navFrom (navDoc (run (MockStore h0) ops) p).1 (navDoc (run (MockStore h0) ops) p).2
        [(name, id)]).1).2 = none ∧
    (navDoc (run (MockStore h0) ops) p).2.Get J
      ((navDoc (run (MockStore h0) ops) p).2.Delete
        (navFrom (navDoc (run (MockStore h0) ops) p).1 (navDoc (run (MockStore h0) ops) p).2
          [(name, id)]).1).1 dst = ⟨false, none, (run (MockStore h0) ops).heap⟩ ∧
    (navFrom ((navDoc (run (MockStore h0) ops) p).2.Delete
        (navFrom (navDoc (run (MockStore h0) ops) p).1 (navDoc (run (MockStore h0) ops) p).2
          [(name, id)]).1).1 (navDoc (run (MockStore h0) ops) p).2 [(name, id)]).2.docNode
      = (navFrom (navDoc (run (MockStore h0) ops) p).1 (navDoc (run (MockStore h0) ops) p).2
          [(name, id)]).2.docNode ∧
    (navFrom ((navDoc (run (MockStore h0) ops) p).2.Delete
        (navFrom (navDoc (run (MockStore h0) ops) p).1 (navDoc (run (MockStore h0) ops) p).2
          [(name, id)]).1).1 (navDoc (run (MockStore h0) ops) p).2 [(name, id)]).2.Get J
      (navFrom ((navDoc (run (MockStore h0) ops) p).2.Delete
        (navFrom (navDoc (run (MockStore h0) ops) p).1 (navDoc (run (MockStore h0) ops) p).2
          [(name, id)]).1).1 (navDoc (run (MockStore h0) ops) p).2 [(name, id)]).1 dst
      = (navFrom (navDoc (run (MockStore h0) ops) p).1 (navDoc (run (MockStore h0) ops) p).2
          [(name, id)]).2.Get J
        (navFrom (navDoc (run (MockStore h0) ops) p).1 (navDoc (run (MockStore h0) ops) p).2
          [(name, id)]).1 dst := by
  have s : Sound (run (MockStore h0) ops) := Sound.run ops (Sound.mockStore h0)
  have s1 := s.navDoc p
  have hlt := navDoc_lt s p
  have hh1 : (navDoc (run (MockStore h0) ops) p).1.heap = (run (MockStore h0) ops).heap :=
    (navDoc_grows _ p).heap
  generalize navDoc (run (MockStore h0) ops) p = r at s1 hlt hh1 ⊢
  have g1 := navFrom_grows [(name, id)] r.1 r.2
  have t1 := navFrom_tree [(name, id)] r.1 r.2 s1.tree
  have s2 : Sound (navFrom r.1 r.2 [(name, id)]).1 := s1.grows g1 t1
  have r1 := navFrom_resolves [(name, id)] r.1 r.2 s1.tree hlt
  have hne := resolveFrom_ne t1 _ _ _ _ r1
  have hlt2 : r.2.docNode < (navFrom r.1 r.2 [(name, id)]).1.docHeap.length :=
    Nat.lt_of_lt_of_le hlt g1.docLen
  generalize navFrom r.1 r.2 [(name, id)] = e at g1 t1 s2 r1 hne hlt2 ⊢
  rw [Delete_eq s2.noFaults]
  have s3 := s2.setData r.2.docNode .nil
  have r3 : resolveFrom (e.1.setData r.2.docNode .nil) r.2.docNode [(name, id)]
      = some e.2.docNode := by
    rw [resolveFrom_congr (setData_colNodes e.1 _ _) (fun q => by rw [setData_col])]
    exact r1
  have hn := navFrom_of_resolve [(name, id)] _ r.2 _ r3
  have g3 := navFrom_grows [(name, id)] (e.1.setData r.2.docNode .nil) r.2
  have t3 := navFrom_tree [(name, id)] (e.1.setData r.2.docNode .nil) r.2 s3.tree
  refine ⟨rfl, ?_, hn, ?_⟩
  · rw [Get_eq s3.noFaults, setData_data_self _ _ _ hlt2, ← hh1, ← g1.heap]
    rfl
  · apply Get_same_data _ _ s2.noFaults (s3.grows g3 t3).noFaults J dst
    · rw [g3.data, hn, setData_data_ne _ _ _ _ hne]
    · exact g3.heap

/-! ### Fault rules -/

/-- C6, the failing input: on a new store, `FailsOnGet("c/d", true)` followed by `Get` on the
document `c/d` (whose fault key is `"c/d"`) returns not-found with no error, whatever the
destination, and leaves the value memory as it was; likewise `Set` and
`Delete` return no error after `FailsOnSet` / `FailsOnDel`, and `Update` after `FailsOnUpdate`
returns "doesn't exist", not the fault error: each setter stores `false`. -/
theorem C6_armed_fault_is_ignored :
    (navDoc (FailsOnGet (MockStore Heap.empty) "c/d" true) ⟨"c", "d", []⟩).2.faultKey
        (navDoc (FailsOnGet (MockStore Heap.empty) "c/d" true) ⟨"c", "d", []⟩).1 = "c/d" ∧
    (∀ (J : Json) (dst : GoVal),
      (navDoc (FailsOnGet (MockStore Heap.empty) "c/d" true) ⟨"c", "d", []⟩).2.Get J
        (navDoc (FailsOnGet (MockStore Heap.empty) "c/d" true) ⟨"c", "d", []⟩).1 dst
      = ⟨false, none, Heap.empty⟩) ∧
    ((navDoc (FailsOnSet (MockStore Heap.empty) "c/d" true) ⟨"c", "d", []⟩).2.Set
        (navDoc (FailsOnSet (MockStore Heap.empty) "c/d" true) ⟨"c", "d", []⟩).1 (.int 1)).2
      = none ∧
    ((navDoc (FailsOnDel (MockStore Heap.empty) "c/d" true) ⟨"c", "d", []⟩).2.Delete
        (navDoc (FailsOnDel (MockStore Heap.empty) "c/d" true) ⟨"c", "d", []⟩).1).2 = none ∧
    ((navDoc (FailsOnUpdate (MockStore Heap.empty) "c/d" true) ⟨"c", "d", []⟩).2.Update
        (navDoc (FailsOnUpdate (MockStore Heap.empty) "c/d" true) ⟨"c", "d", []⟩).1
        [⟨"a", .int 1⟩]).2 = .ret (some "doesn't exist") := by
  refine ⟨by decide, fun _ _ => rfl, by decide, by decide, rfl⟩

/-! ### Batches -/

theorem queue_elements (calls : List DirectCall) :
    ∀ (wb : World × BatchMock),
      (calls.foldl DirectCall.queue wb).1 = wb.1 ∧
      (calls.foldl DirectCall.queue wb).2.elements
        = wb.2.elements ++ calls.map DirectCall.element := by
  induction calls with
  | nil => intro wb; simp
  | cons c cs ih =>
    intro wb
    simp only [List.foldl_cons, List.map_cons]
    obtain ⟨h1, h2⟩ := ih (DirectCall.queue wb c)
    rw [h1, h2]
    cases c <;>
      simp [DirectCall.queue, DirectCall.element, BatchMock.Set, BatchMock.Merge,
        BatchMock.Update]

theorem replayElement_element (w : World) (c : DirectCall) :
    replayElement w c.element = c.perform w := by
  cases c <;> simp [replayElement, DirectCall.element, DirectCall.perform]

theorem commitLoop_elements (calls : List DirectCall) :
    ∀ (w : World), (commitLoop w (calls.map DirectCall.element)).1 = performInOrder w calls := by
  induction calls with
  | nil => intro w; rfl
  | cons c cs ih =>
    intro w
    cases h : (c.perform w).2 with
    | ret e =>
      simp only [List.map_cons, commitLoop, performInOrder, replayElement_element, h]
      exact ih _
    | panic msg =>
      simp only [List.map_cons, commitLoop, performInOrder, replayElement_element, h]

/-- C7: for every world and every sequence of `Set`/`Merge`/`Update` calls queued on a batch
obtained from `Batch()` (the same document may be targeted several times), the world after
`Commit` is the world obtained by making the same calls directly on the references, one after
another in the order they were queued; in particular after queueing `Set(dA, x)` and
`Update(dB, patch)` the world is that of `dA.Set(x)` followed by `dB.Update(patch)`. -/
theorem C7_commit_replays_in_order (w : World) (calls : List DirectCall)
    (dA dB : DocumentRefMock) (x : GoVal) (patch : List Update) :
    ((calls.foldl DirectCall.queue (w, StoreMock.Batch)).2.Commit
        (calls.foldl DirectCall.queue (w, StoreMock.Batch)).1).1 = performInOrder w calls ∧
    (((StoreMock.Batch.Set w dA x).2.Update (StoreMock.Batch.Set w dA x).1 dB patch).2.Commit
        ((StoreMock.Batch.Set w dA x).2.Update (StoreMock.Batch.Set w dA x).1 dB patch).1).1
      = (dB.Update (dA.Set w x).1 patch).1 := by
  constructor
  · obtain ⟨h1, h2⟩ := queue_elements calls (w, StoreMock.Batch)
    rw [BatchMock.Commit, h1, h2]
    exact commitLoop_elements calls w
  · simp only [BatchMock.Commit, BatchMock.Set, BatchMock.Update, StoreMock.Batch,
      List.nil_append, List.cons_append, commitLoop, replayElement]
    simp
    split <;> rfl

/-- C9: queueing on a batch performs no write.  For every world, every batch and every sequence
of `Set`/`Merge`/`Update` calls on the batch, the world after the calls is the world before
them, so `Get` on every document reference returns what it returned before (the same two
results and the same memory, for every destination), and the element list is the previous list followed by one element per call, in call order. -/
theorem C9_queueing_writes_nothing (w : World) (b : BatchMock) (calls : List DirectCall) :
    (calls.foldl DirectCall.queue (w, b)).1 = w ∧
    (∀ (d : DocumentRefMock) (J : Json) (dst : GoVal),
      d.Get J (calls.foldl DirectCall.queue (w, b)).1 dst = d.Get J w dst) ∧
    (calls.foldl DirectCall.queue (w, b)).2.elements
      = b.elements ++ calls.map DirectCall.element := by
  obtain ⟨h1, h2⟩ := queue_elements calls (w, b)
  refine ⟨h1, fun d J dst => by rw [h1], h2⟩

theorem commitLoop_no_panic (els : List BatchElement) :
    ∀ (w : World), (∀ msg, (commitLoop w els).2 ≠ .panic msg) →
      (commitLoop w els).2 = .ret none ∧
      (commitLoop w els).1 = els.foldl (fun u el => (replayElement u el).1) w := by
  induction els with
  | nil => intro w _; exact ⟨rfl, rfl⟩
  | cons el els ih =>
    intro w h
    cases hr : (replayElement w el).2 with
    | ret e =>
      simp only [commitLoop, hr, List.foldl_cons] at h ⊢
      exact ih _ h
    | panic msg =>
      simp only [commitLoop, hr] at h
      exact absurd rfl (h msg)

theorem commitLoop_never_errs (els : List BatchElement) :
    ∀ (w : World) (msg : String), (commitLoop w els).2 ≠ .ret (some msg) := by
  induction els with
  | nil => intro w msg h; simp [commitLoop] at h
  | cons el els ih =>
    intro w msg
    cases hr : (replayElement w el).2 with
    | ret e =>
      simp only [commitLoop, hr]
      exact ih _ msg
    | panic m =>
      simp only [commitLoop, hr]
      intro h; cases h

/-- C8 (amended): `BatchMock.Commit` never returns an error, and for every batch whose replay
does not panic it returns nil and leaves the world obtained by replaying every element in the
order queued, each one applied to the world its predecessor left, whatever error that
predecessor's call returned. -/
theorem C8_commit_discards_errors (w : World) (b : BatchMock) :
    (∀ msg, (b.Commit w).2 ≠ .ret (some msg)) ∧
    ((∀ msg, (b.Commit w).2 ≠ .panic msg) →
      (b.Commit w).2 = .ret none ∧
      (b.Commit w).1 = b.elements.foldl (fun u el => (replayElement u el).1) w) :=
  ⟨commitLoop_never_errs b.elements w, commitLoop_no_panic b.elements w⟩

theorem Get_found (d : DocumentRefMock) (J : Json) (w : World) (dst v : GoVal) (h : Heap)
    (hf : flagOf w.store.failsOnGet (d.faultKey w) = false)
    (hd : (w.doc d.docNode).data = v) (hv : v.isNil = false) (hh : w.heap = h) :
    d.Get J w dst = ⟨true, none, J.unmarshal h (J.marshal h v) dst⟩ := by
  simp [DocumentRefMock.Get, hf, hd, hv, hh]

theorem Get_absent (d : DocumentRefMock) (J : Json) (w : World) (dst : GoVal) (h : Heap)
    (hf : flagOf w.store.failsOnGet (d.faultKey w) = false)
    (hd : (w.doc d.docNode).data.isNil = true) (hh : w.heap = h) :
    d.Get J w dst = ⟨false, none, h⟩ := by
  simp [DocumentRefMock.Get, hf, hd, hh]

theorem batchUpdateThenSet_commit :
    (batchUpdateThenSet.Commit worldAB).2 = .ret none := by
  rfl

/-- Witness of `C8_commit_discards_errors`: the `Update` queued first targets a document
without data and returns "doesn't exist"; `Commit` returns nil and the `Set` queued after it
is applied: `c/b` holds 7, and `Get` on it reports found and copies the encoding of 7. -/
theorem C8_commit_discards_errors_witness :
    (docA.Update worldAB [⟨"x", .int 1⟩]).2 = .ret (some "doesn't exist") ∧
    (∀ msg, (batchUpdateThenSet.Commit worldAB).2 ≠ .panic msg) ∧
    (batchUpdateThenSet.Commit worldAB).2 = .ret none ∧
    (batchUpdateThenSet.Commit worldAB).1
      = batchUpdateThenSet.elements.foldl (fun u el => (replayElement u el).1) worldAB ∧
    ((batchUpdateThenSet.Commit worldAB).1.doc docB.docNode).data = .int 7 ∧
    (∀ (J : Json) (dst : GoVal), docB.Get J (batchUpdateThenSet.Commit worldAB).1 dst
      = ⟨true, none, J.unmarshal Heap.empty (J.marshal Heap.empty (.int 7)) dst⟩) :=
  have h : ∀ msg, (batchUpdateThenSet.Commit worldAB).2 ≠ .panic msg := by
    intro msg e
    rw [batchUpdateThenSet_commit] at e
    cases e
  ⟨rfl, h, ((C8_commit_discards_errors worldAB batchUpdateThenSet).2 h).1,
    ((C8_commit_discards_errors worldAB batchUpdateThenSet).2 h).2, rfl,
    fun J dst => Get_found docB J _ dst (.int 7) Heap.empty rfl rfl rfl rfl⟩

/-- C8 as stated fails on a batch whose first element panics: with `c/a` holding the integer 5,
replaying `Update(docA, [("x", 1)])` hits `panic("invalid path")`, so `Commit` does not return
nil, and the `Set(docB, 7)` queued after it is not applied. -/
theorem C8_counterexample_commit_panics :
    (batchUpdateThenSet.Commit (docA.Set worldAB (.int 5)).1).2 = .panic "invalid path" ∧
    (∀ (J : Json) (dst : GoVal),
      docB.Get J (batchUpdateThenSet.Commit (docA.Set worldAB (.int 5)).1).1 dst
        = ⟨false, none, Heap.empty⟩) := by
  exact ⟨rfl, fun J dst => Get_absent docB J _ dst Heap.empty rfl rfl rfl⟩

/-! ### Records -/

theorem findField_getElem (seg : String) (fs : List (StructField GoVal)) :
    ∀ (k i : Nat) (f : StructField GoVal), findField seg k fs = some (i, f) →
      k ≤ i ∧ fs[i - k]? = some f := by
  induction fs with
  | nil => intro k i f h; simp [findField] at h
  | cons g gs ih =>
    intro k i f h
    simp only [findField] at h
    split at h
    · simp only [Option.some.injEq, Prod.mk.injEq] at h
      obtain ⟨rfl, rfl⟩ := h
      simp
    · obtain ⟨h1, h2⟩ := ih (k + 1) i f h
      refine ⟨by omega, ?_⟩
      have e : i - k = (i - (k + 1)) + 1 := by omega
      rw [e, List.getElem?_cons_succ]
      exact h2

theorem findField_zero {seg : String} {fs : List (StructField GoVal)} {i : Nat}
    {f : StructField GoVal} (h : findField seg 0 fs = some (i, f)) : fs[i]? = some f :=
  (findField_getElem seg fs 0 i f h).2

theorem setValue_nested_field (h : Heap) (a : Nat) (outer inner : String)
    (fs gs : List (StructField GoVal)) (i j : Nat) (fa fc : StructField GoVal)
    (s1 s2 : String) (v : GoVal) (t : GoType)
    (hvar : h.vars a = some ⟨.struct outer, .struct outer fs⟩)
    (hfa : findField s1 0 fs = some (i, fa)) (hfaE : fa.exported = true)
    (hfaT : fa.typ = .struct inner) (hfaV : fa.val = .struct inner gs)
    (hfc : findField s2 0 gs = some (j, fc)) (hfcE : fc.exported = true)
    (hv : typeOf h v = some t) (hassign : fc.typ = .iface ∨ t = fc.typ) :
    setValue h (.ptr a []) [s1, s2] v =
      .ret { h with
        vars := fun b =>
          if b = a then
            some ⟨.struct outer, .struct outer
              (fs.set i { fa with val := .struct inner (gs.set j { fc with val := v }) })⟩
          else h.vars b } := by
  have hi := findField_zero hfa
  have hj := findField_zero hfc
  simp [setValue, reflectTarget, Heap.load, hvar, projSlot, hfa, hfaE, hi, hfaT, hfaV, hfc,
    setField, hfcE, hv, hassign, Heap.store, writeProj, hj]

theorem stringsSplit_addr_city : stringsSplit "addr.city" = ["addr", "city"] := by
  decide

/-- C10 (amended): for every record that is passed by pointer (`ptr a []`, the variable at `a`
holding the struct), whose first field tagged `addr` is exported and holds a nested record by
value, whose first field tagged `city` is exported, and for every value `v` other than nil whose
type is assignable to that field's type: `SetPathValue(record, "addr.city", v)` returns without
panic and the memory differs only in that nested field, which holds `v`; every other field of
the outer and of the nested record keeps its tag, type and value.  `Update` with that patch on a
document storing the pointer, no update fault being armed, returns nil with the same effect. -/
theorem C10_nested_record_field (w : World) (d : DocumentRefMock) (a : Nat)
    (outer inner : String) (fs gs : List (StructField GoVal)) (i j : Nat)
    (fa fc : StructField GoVal) (v : GoVal) (t : GoType)
    (hvar : w.heap.vars a = some ⟨.struct outer, .struct outer fs⟩)
    (hfa : findField "addr" 0 fs = some (i, fa)) (hfaE : fa.exported = true)
    (hfaT : fa.typ = .struct inner) (hfaV : fa.val = .struct inner gs)
    (hfc : findField "city" 0 gs = some (j, fc)) (hfcE : fc.exported = true)
    (hv : typeOf w.heap v = some t) (hassign : fc.typ = .iface ∨ t = fc.typ) :
    SetPathValue w.heap (.ptr a []) "addr.city" v =
      .ret { w.heap with
        vars := fun b =>
          if b = a then
            some ⟨.struct outer, .struct outer
              (fs.set i { fa with val := .struct inner (gs.set j { fc with val := v }) })⟩
          else w.heap.vars b } ∧
    (flagOf w.store.failsOnUpd (d.faultKey w) = false → (w.doc d.docNode).data = .ptr a [] →
      d.Update w [⟨"addr.city", v⟩] =
        ({ w with
            heap := { w.heap with
              vars := fun b =>
                if b = a then
                  some ⟨.struct outer, .struct outer
                    (fs.set i { fa with val := .struct inner (gs.set j { fc with val := v }) })⟩
                else w.heap.vars b } },
          .ret none)) := by
  have e := setValue_nested_field w.heap a outer inner fs gs i j fa fc "addr" "city" v t hvar hfa
    hfaE hfaT hfaV hfc hfcE hv hassign
  rw [← stringsSplit_addr_city] at e
  refine ⟨e, ?_⟩
  intro hf hd
  simp [DocumentRefMock.Update, hf, hd, GoVal.isNil, applyPatches, SetPathValue, e]

/-- Witness of `C10_nested_record_field`: the city of the customer record, passed by pointer,
is set to "Rome"; name and zip keep their values. -/
theorem C10_nested_record_field_witness :
    SetPathValue heapCustomer (.ptr 0 []) "addr.city" (.str "Rome") =
      .ret { heapCustomer with
        vars := fun b =>
          if b = 0 then
            some ⟨.struct "Customer", .struct "Customer"
              [⟨"name", true, .string, .str "Ann"⟩,
               ⟨"addr", true, .struct "Address",
                  .struct "Address" [⟨"city", true, .string, .str "Rome"⟩,
                    ⟨"zip", true, .string, .str "75001"⟩]⟩]⟩
          else heapCustomer.vars b } :=
  (C10_nested_record_field (MockStore heapCustomer) docA 0 "Customer" "Address" _ _ 1 0
    ⟨"addr", true, .struct "Address",
      .struct "Address" [⟨"city", true, .string, .str "Paris"⟩,
        ⟨"zip", true, .string, .str "75001"⟩]⟩
    ⟨"city", true, .string, .str "Paris"⟩ (.str "Rome") .string rfl rfl rfl rfl rfl rfl rfl rfl
    (Or.inr rfl)).1

/-- C10 as stated fails: on the same record passed by value `SetPathValue` panics, because a
field of a struct held in an interface is not addressable; and through a pointer it panics
when the value is an integer, which is not assignable to the string field. -/
theorem C10_counterexample_record_by_value :
    SetPathValue heapCustomer customerRecord "addr.city" (.str "Rome")
      = .panic "reflect.Value.Addr of unaddressable value" ∧
    SetPathValue heapCustomer (.ptr 0 []) "addr.city" (.int 5)
      = .panic "reflect.Set: value is not assignable to type" :=
  ⟨rfl, rfl⟩

/-! ### Paths that do not match the value -/

/-- On a record without a field tagged `seg`, `setValue` reaches `panic("invalid path")`,
at an intermediate step as well as at the last one. -/
theorem setValue_missing_field_panics (h : Heap) (object : GoVal) (v : RValue) (n : String)
    (fs : List (StructField GoVal)) (seg : String) (rest : List String) (value : GoVal)
    (hv : reflectTarget h object = some v) (ht : v.typ = .struct n) (hs : v.val = .struct n fs)
    (hf : findField seg 0 fs = none) :
    setValue h object (seg :: rest) value = .panic "invalid path" := by
  simp [setValue, hv, ht, hs, hf]

/-- On a map without the key `seg`, `setValue` with further segments to go returns and leaves
the memory as it is. -/
theorem setValue_missing_key_returns (h : Heap) (object : GoVal) (v : RValue) (seg next : String)
    (rest : List String) (value : GoVal) (hv : reflectTarget h object = some v)
    (ht : v.typ = .map) (hk : mapIndex h v.val seg = none) :
    setValue h object (seg :: next :: rest) value = .ret h := by
  simp [setValue, hv, ht, hk]

/-- C11, the failing input: on the map `{a: 1, b: 2}`, which lacks the key `zzz`,
`SetPathValue(m, "zzz.city", "x")` returns normally and changes nothing; the same two-segment
call on a record without a field tagged `geo` panics with "invalid path". -/
theorem C11_missing_map_key_returns_normally :
    SetPathValue heapAB (.map 0) "zzz.city" (.str "x") = .ret heapAB ∧
    SetPathValue heapCustomer (.ptr 0 []) "geo.lat" (.str "x") = .panic "invalid path" :=
  ⟨rfl, rfl⟩

/-! ### The delete sentinel -/

/-- What the code does on a map object with `firestore.Delete` and a dot-free key: the key is
removed, present or not, every other key keeps its entry, and `GetPathValue` then gives the
absent result for the key. -/
theorem SetPathValue_delete (h : Heap) (a : Nat) (m : String → Option GoVal) (k : String)
    (hm : h.maps a = some m) (hk : '.' ∉ k.toList) :
    SetPathValue h (.map a) k firestoreDelete =
      .ret { h with
        maps := fun b =>
          if b = a then some (fun j => if j = k then none else m j) else h.maps b } ∧
    GetPathValue
      { h with
        maps := fun b =>
          if b = a then some (fun j => if j = k then none else m j) else h.maps b }
      (.map a) k = .ret .nil := by
  constructor
  · simp [SetPathValue, stringsSplit_single k hk, setValue, reflectTarget, setMapEntry,
      firestoreDelete, hm]
  · simp [GetPathValue, stringsSplit_single k hk, getValue, reflectTarget, mapIndex]

/-- What the code does on a map object with a value other than nil and `firestore.Delete` and
a dot-free key: the key is inserted or overwritten and every other key keeps its entry. -/
theorem SetPathValue_insert (h : Heap) (a : Nat) (m : String → Option GoVal) (k : String)
    (x : GoVal) (hm : h.maps a = some m) (hk : '.' ∉ k.toList) (hx : x.isNil = false)
    (hs : x ≠ firestoreDelete) :
    SetPathValue h (.map a) k x =
      .ret { h with
        maps := fun b =>
          if b = a then some (fun j => if j = k then some x else m j) else h.maps b } := by
  rw [SetPathValue, stringsSplit_single k hk]
  exact setValue_map_single h a m k x hm hx hs

/-- C12, the failing input: on the map `{a: 1, b: 2}`, `SetPathValue(m, "a", nil)` panics at
`reflect.TypeOf(value).String()` instead of overwriting `a`, although nil is a value other than
the delete sentinel. -/
theorem C12_set_nil_value_panics :
    SetPathValue heapAB (.map 0) "a" .nil
      = .panic "invalid memory address or nil pointer dereference" :=
  rfl

/-! ### Lookup -/

/-- Whenever `getValue` does not panic, it returns what the reference lookup gives. -/
theorem getValue_eq_reference (h : Heap) (path : List String) :
    ∀ (object : GoVal), (∀ msg, getValue h object path ≠ .panic msg) →
      getValue h object path = .ret (referenceGet h object path) := by
  induction path with
  | nil => intro object _; rfl
  | cons seg rest ih =>
    intro object hp
    simp only [getValue, referenceGet] at hp ⊢
    split
    · rfl
    · next v hv =>
      simp only [hv] at hp
      split
      · split
        · rfl
        · next e he => simp only [he] at hp; exact ih e (by simpa [*] using hp)
      · split
        · next n fs hfs =>
          split
          · next i f hf =>
            by_cases hx : f.exported = true
            · simp only [hx, if_true]
              apply ih
              intro msg hm
              simp_all
            · exfalso
              simp_all
          · rfl
        · rfl
      · rfl

/-- The call `GetPathValue(object, "s1.s2")` is `getValue` on the segments `[s1, s2]`. -/
theorem GetPathValue_segments :
    stringsSplit "addr.city" = ["addr", "city"] ∧
    ∀ (h : Heap) (object : GoVal) (pathName : String),
      GetPathValue h object pathName = getValue h object (stringsSplit pathName) :=
  ⟨by decide, fun _ _ _ => rfl⟩

/-- C13, the failing input: on a record whose field tagged `secret` is unexported,
`GetPathValue(record, "secret")` panics in `v.Field(i).Interface()`, where the reference lookup
gives the field's value; the exported field `owner` is read as the reference says. -/
theorem C13_unexported_field_panics :
    GetPathValue Heap.empty accountRecord "secret"
      = .panic "reflect.Value.Interface: cannot return value obtained from unexported field or method" ∧
    referenceGet Heap.empty accountRecord ["secret"] = .str "s3" ∧
    GetPathValue Heap.empty accountRecord "owner" = .ret (.str "Ann") :=
  ⟨rfl, rfl, rfl⟩

/-! ### Paths of references -/

theorem growCap_ge (oldCap needed : Nat) : needed ≤ growCap oldCap needed := by
  unfold growCap
  split <;> omega

theorem goAppend_read (w : World) (s : GoSlice) (x : String) (hs : ValidSlice w s) :
    (goAppend w s x).1.readSlice (goAppend w s x).2 = w.readSlice s ++ [x] ∧
    ValidSlice (goAppend w s x).1 (goAppend w s x).2 := by
  obtain ⟨a, ha, hl, hle⟩ := hs
  unfold goAppend
  split
  · next hlt =>
    have hlen : s.len < a.length := by omega
    have harr : s.arr < w.arrays.length := by
      by_contra hc
      rw [List.getElem?_eq_none (by omega)] at ha
      cases ha
    have e : (w.arrays.set s.arr (a.set s.len x))[s.arr]? = some (a.set s.len x) := by
      rw [List.getElem?_set]; simp [harr]
    refine ⟨?_, a.set s.len x, ?_, ?_, ?_⟩
    · simp only [World.readSlice, ha, e]
      rw [List.take_succ, List.set_take]
      have h1 : (List.take s.len a).set s.len x = List.take s.len a :=
        List.set_eq_of_length_le (by simp)
      have h2 : (a.set s.len x)[s.len]? = some x := by
        rw [List.getElem?_set]; simp [hlen]
      rw [h1, h2]; rfl
    · simp only [ha, e]
    · simp [hl]
    · show s.len + 1 ≤ s.cap
      omega
  · next hge =>
    have hg := growCap_ge s.cap (s.len + 1)
    have htake : (List.take s.len a).length = s.len := by
      rw [List.length_take]; omega
    refine ⟨?_, w.readSlice s ++ x :: List.replicate (growCap s.cap (s.len + 1) - (s.len + 1)) "",
      ?_, ?_, ?_⟩
    · simp only [World.readSlice, ha, List.getElem?_concat_length]
      have : List.take s.len a ++ x :: List.replicate (growCap s.cap (s.len + 1) - (s.len + 1)) ""
          = (List.take s.len a ++ [x])
            ++ List.replicate (growCap s.cap (s.len + 1) - (s.len + 1)) "" := by simp
      rw [this]
      exact List.take_left' (by simp [htake])
    · simp only [List.getElem?_concat_length]
    · simp only [World.readSlice, ha, List.length_append, List.length_cons,
        List.length_replicate, htake]
      omega
    · exact hg

theorem readSlice_same_arrays {w w2 : World} (h : w2.arrays = w.arrays) (s : GoSlice) :
    w2.readSlice s = w.readSlice s := by
  simp [World.readSlice, h]

theorem ValidSlice.same_arrays {w w2 : World} {s : GoSlice} (v : ValidSlice w s)
    (h : w2.arrays = w.arrays) : ValidSlice w2 s := by
  obtain ⟨a, ha, hl, hle⟩ := v
  exact ⟨a, by rw [h]; exact ha, hl, hle⟩

theorem Collection_path (w : World) (name : String) :
    (StoreMock.Collection w name).1.readSlice (StoreMock.Collection w name).2.Path = [name] ∧
    ValidSlice (StoreMock.Collection w name).1 (StoreMock.Collection w name).2.Path := by
  unfold StoreMock.Collection
  split <;>
    exact ⟨by simp [World.readSlice, sliceLit, CollectionRefMock.Path],
      [name], by simp [sliceLit, CollectionRefMock.Path], rfl, Nat.le_refl _⟩

theorem Doc_path (w : World) (c : CollectionRefMock) (id : String)
    (hc : ValidSlice w c.Path) :
    (c.Doc w id).1.readSlice (c.Doc w id).2.Path = w.readSlice c.Path ++ [id] ∧
    ValidSlice (c.Doc w id).1 (c.Doc w id).2.Path := by
  unfold CollectionRefMock.Doc
  split
  · exact goAppend_read w c.colPath id hc
  · have h := goAppend_read
      { w with
        docHeap := w.docHeap ++ [{ id := id, data := .nil, colNodes := fun _ => none }]
        colHeap := w.colHeap.set c.colNode
          { docNodes := mapAssign (w.col c.colNode).docNodes id w.docHeap.length } }
      c.colPath id (hc.same_arrays rfl)
    exact h

theorem subCollection_path (w : World) (d : DocumentRefMock) (name : String)
    (hd : ValidSlice w d.Path) :
    (d.Collection w name).1.readSlice (d.Collection w name).2.Path
      = w.readSlice d.Path ++ [name] ∧
    ValidSlice (d.Collection w name).1 (d.Collection w name).2.Path := by
  unfold DocumentRefMock.Collection
  split
  · exact goAppend_read w d.docPath name hd
  · have h := goAppend_read
      { w with
        colHeap := w.colHeap ++ [{ docNodes := fun _ => none }]
        docHeap := w.docHeap.set d.docNode
          { w.doc d.docNode with
            colNodes := mapAssign (w.doc d.docNode).colNodes name w.colHeap.length } }
      d.docPath name (hd.same_arrays rfl)
    exact h

theorem navFrom_path (more : List (String × String)) :
    ∀ (w : World) (d : DocumentRefMock), ValidSlice w d.Path →
      (navFrom w d more).1.readSlice (navFrom w d more).2.Path
        = w.readSlice d.Path ++ more.flatMap (fun x => [x.1, x.2]) ∧
      ValidSlice (navFrom w d more).1 (navFrom w d more).2.Path := by
  induction more with
  | nil => intro w d hd; exact ⟨by simp [navFrom], hd⟩
  | cons x rest ih =>
    intro w d hd
    obtain ⟨p1, v1⟩ := subCollection_path w d x.1 hd
    obtain ⟨p2, v2⟩ := Doc_path (d.Collection w x.1).1 (d.Collection w x.1).2 x.2 v1
    obtain ⟨p3, v3⟩ := ih _ _ v2
    simp only [navFrom]
    refine ⟨?_, v3⟩
    rw [p3, p2, p1]
    simp

theorem navDoc_path (w : World) (p : DocPath) :
    (navDoc w p).1.readSlice (navDoc w p).2.Path = p.segments ∧
    ValidSlice (navDoc w p).1 (navDoc w p).2.Path := by
  obtain ⟨p1, v1⟩ := Collection_path w p.col
  obtain ⟨p2, v2⟩ := Doc_path (StoreMock.Collection w p.col).1 (StoreMock.Collection w p.col).2
    p.id v1
  obtain ⟨p3, v3⟩ := navFrom_path p.more _ _ v2
  simp only [navDoc]
  refine ⟨?_, v3⟩
  rw [p3, p2, p1]
  simp [DocPath.segments]

theorem segments_length (p : DocPath) :
    p.segments.length % 2 = 0 ∧ 2 ≤ p.segments.length := by
  have h : ∀ (m : List (String × String)),
      (m.flatMap fun x => [x.1, x.2]).length = 2 * m.length := by
    intro m
    induction m with
    | nil => rfl
    | cons x xs ih => simp only [List.flatMap_cons, List.length_append, ih]; simp; omega
  simp only [DocPath.segments, List.length_cons, h]
  omega

/-- C15: paths are built by extension.  `StoreMock.Collection(name).Path()` is `[name]`; for a
collection reference whose path slice is well formed and reads `p`, `Doc(id).Path()` reads
`p ++ [id]` when the call returns; for a document reference whose path reads `q`,
`Collection(name).Path()` reads `q ++ [name]`.  Hence the document reference navigated to from
the store has, when it is returned, the segments of its path, an even number of at least two,
and a collection reference obtained from the store or from such a document has an odd number of
segments. -/
theorem C15_paths_built_by_extension (w : World) (c : CollectionRefMock) (d : DocumentRefMock)
    (name id : String) (p : DocPath) (hc : ValidSlice w c.Path) (hd : ValidSlice w d.Path) :
    (StoreMock.Collection w name).1.readSlice (StoreMock.Collection w name).2.Path = [name] ∧
    (c.Doc w id).1.readSlice (c.Doc w id).2.Path = w.readSlice c.Path ++ [id] ∧
    (d.Collection w name).1.readSlice (d.Collection w name).2.Path
      = w.readSlice d.Path ++ [name] ∧
    (navDoc w p).1.readSlice (navDoc w p).2.Path = p.segments ∧
    ((navDoc w p).1.readSlice (navDoc w p).2.Path).length % 2 = 0 ∧
    2 ≤ ((navDoc w p).1.readSlice (navDoc w p).2.Path).length ∧
    ((StoreMock.Collection w name).1.readSlice (StoreMock.Collection w name).2.Path).length
      % 2 = 1 ∧
    (((navDoc w p).2.Collection (navDoc w p).1 name).1.readSlice
      ((navDoc w p).2.Collection (navDoc w p).1 name).2.Path).length % 2 = 1 := by
  obtain ⟨n1, n2⟩ := navDoc_path w p
  obtain ⟨l1, l2⟩ := segments_length p
  have s1 := (subCollection_path (navDoc w p).1 (navDoc w p).2 name n2).1
  refine ⟨(Collection_path w name).1, (Doc_path w c id hc).1, (subCollection_path w d name hd).1,
    n1, by rw [n1]; exact l1, by rw [n1]; exact l2, by rw [(Collection_path w name).1]; rfl, ?_⟩
  rw [s1, n1, List.length_append]
  simp only [List.length_singleton]
  omega

/-- Witness of `C15_paths_built_by_extension`: the collection reference `a/x/b` and the
document reference `a/x` in the world where both exist. -/
theorem C15_paths_built_by_extension_witness :
    ValidSlice nestedCollection.1 nestedCollection.2.Path ∧
    ValidSlice nestedCollection.1 (navDoc (MockStore Heap.empty) ⟨"a", "x", []⟩).2.Path ∧
    (nestedCollection.2.Doc nestedCollection.1 "y").1.readSlice
        (nestedCollection.2.Doc nestedCollection.1 "y").2.Path
      = nestedCollection.1.readSlice nestedCollection.2.Path ++ ["y"] :=
  have hc : ValidSlice nestedCollection.1 nestedCollection.2.Path :=
    ⟨["a", "x", "b", ""], rfl, rfl, by decide⟩
  have hd : ValidSlice nestedCollection.1 (navDoc (MockStore Heap.empty) ⟨"a", "x", []⟩).2.Path :=
    ⟨["a", "x"], rfl, rfl, by decide⟩
  ⟨hc, hd,
    (C15_paths_built_by_extension nestedCollection.1 nestedCollection.2
      (navDoc (MockStore Heap.empty) ⟨"a", "x", []⟩).2 "b" "y" ⟨"a", "x", []⟩ hc hd).2.1⟩

/-- C16, the failing input: with `c := s.Collection("a").Doc("x").Collection("b")`, whose path
slice has length 3 and capacity 4, `da := c.Doc("y")` reads `[a, x, b, y]` when it is returned,
and after `db := c.Doc("z")` the same `da.Path()` reads `[a, x, b, z]`: both appends wrote the
fourth cell of the one backing array. -/
theorem C16_second_doc_overwrites_first_path :
    nestedCollection.2.Path.len = 3 ∧ nestedCollection.2.Path.cap = 4 ∧
    firstDoc.1.readSlice firstDoc.2.Path = ["a", "x", "b", "y"] ∧
    secondDoc.1.readSlice nestedCollection.2.Path = ["a", "x", "b"] ∧
    secondDoc.1.readSlice firstDoc.2.Path = ["a", "x", "b", "z"] ∧
    secondDoc.1.readSlice secondDoc.2.Path = ["a", "x", "b", "z"] := by
  refine ⟨rfl, rfl, ?_, ?_, ?_, ?_⟩ <;> decide

/-! ### The real-backend facade -/

/-- C14: `DocumentRefImpl.Get` maps the backend read as follows, for every error type and
status function: an error whose status code is `NotFound` gives (false, nil); any other error
`e` gives (false, `e`) with `e` unchanged; a read without error gives (true, nil); and it
returns true only when the read returned no error. -/
theorem C14_get_maps_backend_result {E : Type} (statusCode : E → Nat) (e : E)
    (err : Option E) :
    (statusCode e = codesNotFound → DocumentRefImpl.Get statusCode (some e) = (false, none)) ∧
    (statusCode e ≠ codesNotFound → DocumentRefImpl.Get statusCode (some e) = (false, some e)) ∧
    DocumentRefImpl.Get statusCode (none : Option E) = (true, none) ∧
    ((DocumentRefImpl.Get statusCode err).1 = true → err = none) := by
  refine ⟨fun h => by simp [DocumentRefImpl.Get, h], fun h => by simp [DocumentRefImpl.Get, h],
    rfl, ?_⟩
  intro h
  cases err with
  | none => rfl
  | some x =>
    simp only [DocumentRefImpl.Get] at h
    split at h <;> cases h

/-- Witness of `C14_get_maps_backend_result`: errors that are their own status code; code 5
is collapsed to not-found and code 14 is handed on unchanged. -/
theorem C14_get_maps_backend_result_witness :
    DocumentRefImpl.Get (fun n : Nat => n) (some 5) = (false, none) ∧
    DocumentRefImpl.Get (fun n : Nat => n) (some 14) = (false, some 14) :=
  ⟨(C14_get_maps_backend_result (fun n : Nat => n) 5 none).1 rfl,
    (C14_get_maps_backend_result (fun n : Nat => n) 14 none).2.1 (by decide)⟩

theorem toFirestoreDocRef_short {R : Type} (rootDoc : String → String → R)
    (subDoc : R → String → String → R) (c d : String) :
    toFirestoreDocRef rootDoc subDoc [] = none ∧
    toFirestoreDocRef rootDoc subDoc [c] = none ∧
    toFirestoreDocRef rootDoc subDoc [c, d] = some (rootDoc c d) ∧
    addressedDocRef rootDoc subDoc [c, d] = some (rootDoc c d) := by
  refine ⟨rfl, rfl, ?_, ?_⟩ <;>
    simp [toFirestoreDocRef, addressedDocRef, List.range, List.range.loop]

/-- C20, the failing input: for the path `[a, b, c, d]`, `toFirestoreDocRef` returns the
backend reference `a/b/a/b`, because the loop body reads `path[0]` and `path[1]` on every
round, where the path names the document `a/b/c/d`; empty and odd-length paths give nil and a
path of length two gives `a/b`, as the claim says. -/
theorem C20_nested_path_resolves_to_wrong_document :
    toFirestoreDocRef backendRootDoc backendSubDoc ["a", "b", "c", "d"]
      = some ["a", "b", "a", "b"] ∧
    addressedDocRef backendRootDoc backendSubDoc ["a", "b", "c", "d"]
      = some ["a", "b", "c", "d"] ∧
    toFirestoreDocRef backendRootDoc backendSubDoc [] = none ∧
    toFirestoreDocRef backendRootDoc backendSubDoc ["a", "b", "c"] = none ∧
    toFirestoreDocRef backendRootDoc backendSubDoc ["a", "b"] = some ["a", "b"] := by
  decide

/-! ### Fault flags -/

/-- C17 (amended): for every world and every document whose data is absent, `Update` tests the
fault flag first: with the update flag of the document's path true it returns the error
"fails on update", with the flag not true it returns "doesn't exist"; in both cases the world
is unchanged.  In every world a program can reach through the exported functions the flag is
not true, so there `Update` on an absent document returns "doesn't exist". -/
theorem C17_update_absent_tests_fault_first (w : World) (d : DocumentRefMock)
    (patch : List Update) (h0 : Heap) (ops : List Op)
    (hd : (w.doc d.docNode).data.isNil = true)
    (hr : ((run (MockStore h0) ops).doc d.docNode).data.isNil = true) :
    (flagOf w.store.failsOnUpd (d.faultKey w) = true →
      d.Update w patch = (w, .ret (some "fails on update"))) ∧
    (flagOf w.store.failsOnUpd (d.faultKey w) = false →
      d.Update w patch = (w, .ret (some "doesn't exist"))) ∧
    d.Update (run (MockStore h0) ops) patch
      = (run (MockStore h0) ops, .ret (some "doesn't exist")) := by
  have s : Sound (run (MockStore h0) ops) := Sound.run ops (Sound.mockStore h0)
  refine ⟨fun h => by simp [DocumentRefMock.Update, h],
    fun h => by simp [DocumentRefMock.Update, h, hd], ?_⟩
  simp [DocumentRefMock.Update, s.noFaults.upd, hr]

/-- Witness of `C17_update_absent_tests_fault_first`: the document `c/a`, without data, in the
world where its update flag is true and in the world reached by navigation only. -/
theorem C17_update_absent_tests_fault_first_witness :
    (worldArmed.doc docA.docNode).data.isNil = true ∧
    flagOf worldArmed.store.failsOnUpd (docA.faultKey worldArmed) = true ∧
    docA.Update worldArmed [⟨"x", .int 1⟩] = (worldArmed, .ret (some "fails on update")) ∧
    docA.Update (run (MockStore Heap.empty) [Op.navDoc ⟨"c", "a", []⟩]) [⟨"x", .int 1⟩]
      = (run (MockStore Heap.empty) [Op.navDoc ⟨"c", "a", []⟩], .ret (some "doesn't exist")) :=
  ⟨by decide, by decide,
    (C17_update_absent_tests_fault_first worldArmed docA [⟨"x", .int 1⟩] Heap.empty
      [Op.navDoc ⟨"c", "a", []⟩] (by decide) (by decide)).1 (by decide),
    (C17_update_absent_tests_fault_first worldArmed docA [⟨"x", .int 1⟩] Heap.empty
      [Op.navDoc ⟨"c", "a", []⟩] (by decide) (by decide)).2.2⟩

/-- C17 as stated fails in a state whose update flag is true: `c/a` holds no data, its fault
key is `"c/a"`, the flag of that key is true, and `Update` returns "fails on update", not
"doesn't exist". -/
theorem C17_counterexample_armed_flag_wins :
    (worldArmed.doc docA.docNode).data.isNil = true ∧
    docA.faultKey worldArmed = "c/a" ∧
    worldArmed.store.failsOnUpd "c/a" = some true ∧
    (docA.Update worldArmed [⟨"x", .int 1⟩]).2 = .ret (some "fails on update") := by
  refine ⟨by decide, by decide, by decide, rfl⟩

theorem Update_outcomes {w : World} (nf : NoFaults w) (d : DocumentRefMock)
    (patch : List Update) :
    (d.Update w patch).2 = .ret none ∨ (d.Update w patch).2 = .ret (some "doesn't exist") ∨
      ∃ msg, (d.Update w patch).2 = .panic msg := by
  have key : ∀ (ps : List Update) (h : Heap) (x : GoVal),
      (applyPatches h x ps).2 = .ret none ∨ ∃ msg, (applyPatches h x ps).2 = .panic msg := by
    intro ps
    induction ps with
    | nil => intro h x; exact Or.inl rfl
    | cons p ps ih =>
      intro h x
      simp only [applyPatches]
      split
      · exact ih _ _
      · next msg _ => exact Or.inr ⟨msg, rfl⟩
  simp only [DocumentRefMock.Update, nf.upd]
  by_cases hd : (w.doc d.docNode).data.isNil = true
  · simp [hd]
  · simp only [hd]
    rcases key patch w.heap (w.doc d.docNode).data with h | ⟨msg, h⟩
    · exact Or.inl (by simpa using h)
    · exact Or.inr (Or.inr ⟨msg, by simpa using h⟩)

/-- C18 (amended): each of `FailsOnGet`, `FailsOnSet`, `FailsOnDel` and `FailsOnUpdate` leaves
the flag of its path false whatever flag value is requested; therefore in every world reached
from `MockStore()` by a program using the exported functions no fault flag is true, `Set` and
`Delete` on any reference return nil, `Get` returns no error for any destination, and `Update` returns nil or the
error "doesn't exist", or panics inside `SetPathValue`; it returns no other error. -/
theorem C18_fault_setters_disable (w : World) (path : String) (fails : Bool) (h0 : Heap)
    (ops : List Op) (d : DocumentRefMock) (x : GoVal) (patch : List Update) :
    flagOf (FailsOnGet w path fails).store.failsOnGet path = false ∧
    flagOf (FailsOnSet w path fails).store.failsOnSet path = false ∧
    flagOf (FailsOnDel w path fails).store.failsOnDel path = false ∧
    flagOf (FailsOnUpdate w path fails).store.failsOnUpd path = false ∧
    NoFaults (run (MockStore h0) ops) ∧
    (d.Set (run (MockStore h0) ops) x).2 = none ∧
    (d.Delete (run (MockStore h0) ops)).2 = none ∧
    (∀ (J : Json) (dst : GoVal), (d.Get J (run (MockStore h0) ops) dst).err = none) ∧
    ((d.Update (run (MockStore h0) ops) patch).2 = .ret none ∨
      (d.Update (run (MockStore h0) ops) patch).2 = .ret (some "doesn't exist") ∨
      ∃ msg, (d.Update (run (MockStore h0) ops) patch).2 = .panic msg) := by
  have s : Sound (run (MockStore h0) ops) := Sound.run ops (Sound.mockStore h0)
  refine ⟨by simp [FailsOnGet, flagOf, mapAssign], by simp [FailsOnSet, flagOf, mapAssign],
    by simp [FailsOnDel, flagOf, mapAssign], by simp [FailsOnUpdate, flagOf, mapAssign],
    s.noFaults, by rw [Set_eq s.noFaults], by rw [Delete_eq s.noFaults], ?_,
    Update_outcomes s.noFaults d patch⟩
  intro J dst
  rw [Get_eq s.noFaults]
  split <;> rfl

/-- C18 as stated fails on a reachable state: after `Set(c/a, 5)`, `Update(c/a, [("x", 1)])`
does not fail with "doesn't exist" but panics with "invalid path". -/
theorem C18_counterexample_update_panics :
    ((navDoc (run (MockStore Heap.empty) [Op.set ⟨"c", "a", []⟩ (.int 5)]) ⟨"c", "a", []⟩).2.Update
      (navDoc (run (MockStore Heap.empty) [Op.set ⟨"c", "a", []⟩ (.int 5)]) ⟨"c", "a", []⟩).1
      [⟨"x", .int 1⟩]).2 = .panic "invalid path" :=
  rfl

/-! ### Locality of writes -/

end GoStore
